import Mathlib

/-!
Shallow embedding of `puzzle_gen.py`, a relationship-puzzle generator.

Randomness is modelled by an explicit stream of natural numbers
(`Rng := Nat → Nat`): each primitive draw consumes the head of the stream.
Python's global `random` module corresponds to threading the stream through
every function; `random.seed(s)` corresponds to replacing the ambient stream
by a stream derived from `s`.  Fallible code (Python `raise ValueError`)
is modelled with `Except String`.
-/

namespace PuzzleGen

/-! ## Random source -/

abbrev Rng : Type := Nat → Nat

def rngNext (g : Rng) : Nat × Rng := (g 0, fun n => g (n + 1))

/-- `random.seed(s)`: a concrete deterministic stream derived from the seed. -/
def seedRng (s : Int) : Rng := fun n => (s.natAbs * 1000003 + n * 7919) % 4294967296

/-- `random.randint(a, b)` (inclusive bounds, `a ≤ b` at every call site). -/
def randInt (a b : Nat) (g : Rng) : Nat × Rng :=
  let (v, g') := rngNext g
  (a + v % (b - a + 1), g')

/-- `random.choice(seq)`; raises `IndexError` on an empty sequence. -/
def chooseE {α : Type} (l : List α) (g : Rng) : Except String (α × Rng) :=
  let (v, g') := rngNext g
  match l with
  | [] => .error "IndexError"
  | a :: as => .ok ((a :: as).getD (v % (a :: as).length) a, g')

def listSwap {α : Type} (l : List α) (i j : Nat) : List α :=
  match l.get? i, l.get? j with
  | some a, some b => (l.set i b).set j a
  | _, _ => l

/-- The Fisher-Yates loop of `random.shuffle`, for indices `i, i-1, ..., 1`. -/
def shuffleStep {α : Type} (l : List α) : Nat → Rng → List α × Rng
  | 0, g => (l, g)
  | i + 1, g =>
    let (v, g') := rngNext g
    let j := v % (i + 2)
    shuffleStep (listSwap l (i + 1) j) i g'

/-- `random.shuffle(x)` (returning the shuffled copy). -/
def shuffleL {α : Type} (l : List α) (g : Rng) : List α × Rng :=
  shuffleStep l (l.length - 1) g

/-- `random.sample(pop, k)`: draw without replacement. -/
def sampleL (pop : List String) : Nat → Rng → List String × Rng
  | 0, _g => ([], _g)
  | k + 1, g =>
    match pop with
    | [] => ([], g)
    | _ :: _ =>
      let (v, g') := rngNext g
      let i := v % pop.length
      let x := pop.getD i ""
      let (rest, g'') := sampleL (pop.eraseIdx i) k g'
      (x :: rest, g'')

/-! ## Relation catalog -/

def FIRST_NAMES : List String :=
  ["Alex", "Sam", "Jordan", "Taylor", "Casey", "Riley", "Avery", "Morgan", "Quinn", "Reese",
   "Chris", "Jamie", "Cameron", "Drew", "Logan", "Devon", "Shawn", "Dana", "Frankie", "Jesse",
   "Robin", "Kelly", "Leslie", "Skyler", "Rowan", "Sawyer", "Parker", "Elliot", "Harley", "Remy"]

def COMMON_RELATIONS : List String :=
  ["parent_of", "child_of", "sibling_of", "cousin_of", "spouse_of",
   "friend_of", "coworker_of", "neighbor_of"]

def LINEAR_RELATIONS : List String := ["left_of", "right_of", "next_to"]

def CIRCULAR_RELATIONS : List String := ["left_of", "right_of", "next_to", "across_from"]

def VALID_SEATING_KINDS : List String := ["linear", "circular"]

def VALID_RELATION_PROFILES : List String := ["auto", "social", "spatial", "all"]

def VALID_DIFFICULTY_LEVELS : List String := ["low", "medium", "high"]

def MEDIUM_COMMON_RELATIONS : List String :=
  ["classmate_of", "teammate_of", "mentor_of", "mentee_of"]

def HIGH_COMMON_RELATIONS : List String :=
  MEDIUM_COMMON_RELATIONS ++ ["manager_of", "reports_to", "rival_of"]

def HIGH_LINEAR_RELATIONS : List String := ["two_left_of", "two_right_of"]

def HIGH_CIRCULAR_RELATIONS : List String :=
  HIGH_LINEAR_RELATIONS ++ ["clockwise_of", "counterclockwise_of"]

def RELATION_SETS (group : String) : List String :=
  if group = "common" then COMMON_RELATIONS
  else if group = "linear" then LINEAR_RELATIONS
  else if group = "circular" then CIRCULAR_RELATIONS
  else []

def DIFFICULTY_ADDITIONS (level group : String) : List String :=
  if level = "medium" then
    (if group = "common" then MEDIUM_COMMON_RELATIONS else [])
  else if level = "high" then
    (if group = "common" then HIGH_COMMON_RELATIONS
     else if group = "linear" then HIGH_LINEAR_RELATIONS
     else if group = "circular" then HIGH_CIRCULAR_RELATIONS
     else [])
  else []

def SPATIAL_RELATIONS : List String :=
  LINEAR_RELATIONS ++ HIGH_LINEAR_RELATIONS ++ ["across_from", "clockwise_of", "counterclockwise_of"]

def EMPTY_MARKER : String := "EMPTY_"

def isEmptySeat (name : String) : Bool := EMPTY_MARKER.data.isPrefixOf name.data

/-- Python string comparison: lexicographic over code points. -/
def charsLt : List Char → List Char → Bool
  | _, [] => false
  | [], _ :: _ => true
  | c :: cs, d :: ds =>
    if c.toNat < d.toNat then true
    else if d.toNat < c.toNat then false
    else charsLt cs ds

def pyLt (a b : String) : Bool := charsLt a.data b.data

/-- Python `str.lower()` (ASCII range, which is all the call sites use). -/
def pyLower (s : String) : String :=
  String.mk (s.data.map (fun c =>
    if 65 ≤ c.toNat ∧ c.toNat ≤ 90 then Char.ofNat (c.toNat + 32) else c))

def CANONICAL_RELATIONS : List (String × String × Bool) :=
  [("parent_of", "parent_of", false),
   ("child_of", "parent_of", true),
   ("left_of", "left_of", false),
   ("right_of", "left_of", true),
   ("mentee_of", "mentor_of", true),
   ("two_left_of", "two_left_of", false),
   ("two_right_of", "two_left_of", true),
   ("clockwise_of", "clockwise_of", false),
   ("counterclockwise_of", "clockwise_of", true),
   ("reports_to", "manager_of", true)]

def INVERSE : List (String × String) :=
  [("parent_of", "child_of"),
   ("child_of", "parent_of"),
   ("sibling_of", "sibling_of"),
   ("cousin_of", "cousin_of"),
   ("spouse_of", "spouse_of"),
   ("friend_of", "friend_of"),
   ("coworker_of", "coworker_of"),
   ("neighbor_of", "neighbor_of"),
   ("classmate_of", "classmate_of"),
   ("teammate_of", "teammate_of"),
   ("mentor_of", "mentee_of"),
   ("mentee_of", "mentor_of"),
   ("manager_of", "reports_to"),
   ("reports_to", "manager_of"),
   ("rival_of", "rival_of"),
   ("left_of", "right_of"),
   ("right_of", "left_of"),
   ("next_to", "next_to"),
   ("across_from", "across_from"),
   ("two_left_of", "two_right_of"),
   ("two_right_of", "two_left_of"),
   ("clockwise_of", "counterclockwise_of"),
   ("counterclockwise_of", "clockwise_of")]

/-! ## Association lists (Python `dict` / keyed `set`) -/

def lookupA {κ α : Type} [DecidableEq κ] (k : κ) : List (κ × α) → Option α
  | [] => none
  | (k', v) :: rest => if k = k' then some v else lookupA k rest

/-- `dict[k] = v`: overwrite in place, or append a new entry. -/
def insertA {κ α : Type} [DecidableEq κ] (k : κ) (v : α) : List (κ × α) → List (κ × α)
  | [] => [(k, v)]
  | (k', v') :: rest => if k = k' then (k, v) :: rest else (k', v') :: insertA k v rest

/-- `set.add`. -/
def setAdd (s : List String) (r : String) : List String :=
  if r ∈ s then s else s ++ [r]

/-- `d.setdefault(k, set()).add(r)`. -/
def mapAdd (k : String × String) (r : String) :
    List ((String × String) × List String) → List ((String × String) × List String)
  | [] => [(k, [r])]
  | (k', s) :: rest =>
    if k = k' then (k, setAdd s r) :: rest else (k', s) :: mapAdd k r rest

/-- `d.setdefault(k, set()).update(rs)`. -/
def mapAddAll (k : String × String) (rs : List String)
    (m : List ((String × String) × List String)) : List ((String × String) × List String) :=
  rs.foldl (fun m r => mapAdd k r m) m

/-! ## Data model -/

structure Fact where
  id : String
  subj : String
  rel : String
  obj : String
deriving DecidableEq, Repr, Inhabited

structure Seating where
  kind : String
  seats : List (Nat × String)
deriving DecidableEq, Repr, Inhabited

structure Puzzle where
  names : List String
  facts : List Fact
  seating : Seating
  solution_path : List String
  dot : String
  solution_summary : List String
  dense : Bool
deriving DecidableEq, Repr, Inhabited

abbrev PairState : Type := List ((String × String) × String)

abbrev SpatialMap : Type := List ((String × String) × List String)

/-- Canonical key for an unordered pair of entities (Python `frozenset((a, b))`). -/
def pairKey (a b : String) : String × String := if pyLt b a then (b, a) else (a, b)

/-! ## Geometry Resolver -/

/-- `sorted(seats.items())`: insertion sort by the (position, name) pair. -/
def seatLe (a b : Nat × String) : Bool :=
  a.1 < b.1 ∨ (a.1 = b.1 ∧ ¬ pyLt b.2 a.2)

def insertSeat (x : Nat × String) : List (Nat × String) → List (Nat × String)
  | [] => [x]
  | y :: ys => if seatLe x y then x :: y :: ys else y :: insertSeat x ys

def sortSeats : List (Nat × String) → List (Nat × String)
  | [] => []
  | x :: xs => insertSeat x (sortSeats xs)

/-- The ordered slot-name list of `_build_spatial_relation_map`. -/
def orderedSlots (seats : List (Nat × String)) : List String :=
  (sortSeats seats).map (·.2)

/-- The `positions` dict of `_build_spatial_relation_map`:
name of each occupied slot mapped to its index in the seat-ordered list. -/
def positionsOf (seats : List (Nat × String)) : List (String × Nat) :=
  ((orderedSlots seats).enum.filter (fun p => ¬ isEmptySeat p.2)).foldl
    (fun m p => insertA p.2 p.1 m) []

def linStepLeft (subj obj : String) (idxSubj idxObj : Nat) (m : SpatialMap) : SpatialMap :=
  if idxSubj < idxObj then mapAdd (subj, obj) "left_of" m else m

def linStepRight (subj obj : String) (idxSubj idxObj : Nat) (m : SpatialMap) : SpatialMap :=
  if idxObj < idxSubj then mapAdd (subj, obj) "right_of" m else m

def linStepNext (subj obj : String) (idxSubj idxObj : Nat) (m : SpatialMap) : SpatialMap :=
  if idxSubj - idxObj = 1 ∨ idxObj - idxSubj = 1 then mapAdd (subj, obj) "next_to" m else m

def linStepTwo (subj obj : String) (idxSubj idxObj : Nat) (m : SpatialMap) : SpatialMap :=
  if idxSubj - idxObj = 2 ∨ idxObj - idxSubj = 2 then
    (if idxSubj < idxObj then mapAdd (subj, obj) "two_left_of" m
     else mapAdd (subj, obj) "two_right_of" m)
  else m

/-- Body of the linear double loop for one ordered pair of occupied positions. -/
def linearPairStep (m : SpatialMap) (subj : String) (idxSubj : Nat)
    (obj : String) (idxObj : Nat) : SpatialMap :=
  if subj = obj then m
  else
    linStepTwo subj obj idxSubj idxObj
      (linStepNext subj obj idxSubj idxObj
        (linStepRight subj obj idxSubj idxObj
          (linStepLeft subj obj idxSubj idxObj m)))

/-- Body of the circular loop for one occupied slot `obj` at index `idxObj`. -/
def circularStep (ordered : List String) (n : Nat) (m : SpatialMap)
    (obj : String) (idxObj : Nat) : SpatialMap :=
  let leftName := ordered.getD ((idxObj + n - 1) % n) ""
  let rightName := ordered.getD ((idxObj + 1) % n) ""
  let twoLeftName := ordered.getD ((idxObj + 2 * n - 2) % n) ""
  let twoRightName := ordered.getD ((idxObj + 2) % n) ""
  let m := if ¬ isEmptySeat leftName then
    mapAddAll (leftName, obj) ["left_of", "next_to", "counterclockwise_of"] m else m
  let m := if ¬ isEmptySeat rightName then
    mapAddAll (rightName, obj) ["right_of", "next_to", "clockwise_of"] m else m
  let m := if ¬ isEmptySeat twoLeftName then mapAdd (twoLeftName, obj) "two_left_of" m else m
  let m := if ¬ isEmptySeat twoRightName then mapAdd (twoRightName, obj) "two_right_of" m else m
  if n % 2 = 0 then
    let acrossName := ordered.getD ((idxObj + n / 2) % n) ""
    if acrossName ≠ obj ∧ ¬ isEmptySeat acrossName then
      mapAdd (acrossName, obj) "across_from" m
    else m
  else m

def buildSpatialRelationMap (seating : Seating) : SpatialMap :=
  if seating.seats = [] then []
  else if seating.kind = "linear" then
    (positionsOf seating.seats).foldl (fun m p =>
      (positionsOf seating.seats).foldl (fun m q => linearPairStep m p.1 p.2 q.1 q.2) m) []
  else
    (positionsOf seating.seats).foldl (fun m q =>
      circularStep (orderedSlots seating.seats) (orderedSlots seating.seats).length
        m q.1 q.2) []

/-! ## Pair-State Tracker -/

def relationFamilyType (rel : String) : Option String :=
  if rel = "parent_of" ∨ rel = "child_of" then some "parent_child"
  else if rel = "sibling_of" then some "sibling"
  else if rel = "cousin_of" then some "cousin"
  else if rel = "spouse_of" then some "spouse"
  else none

def registerFamilyRelation (pairState : PairState) (subj rel obj : String) : PairState :=
  match relationFamilyType rel with
  | none => pairState
  | some familyType =>
    if subj = obj then pairState
    else insertA (pairKey subj obj) familyType pairState

/-! ## Constraint Filter -/

/-- Python truthiness test `existing_family and family_type and existing_family != family_type`. -/
def familyConflict (existingFamily familyType : Option String) : Bool :=
  match existingFamily, familyType with
  | some ef, some ft => ef != ft
  | _, _ => false

/-- The `for rel in relations` loop of `_valid_relations_between`. -/
def validLoop (subj obj : String) (allowedSpatial : Option (List String))
    (existingFamily : Option String) : List String → List String
  | [] => []
  | rel :: rest =>
    let familyType := relationFamilyType rel
    if subj = obj ∧ familyType ≠ none then
      validLoop subj obj allowedSpatial existingFamily rest
    else if familyConflict existingFamily familyType then
      validLoop subj obj allowedSpatial existingFamily rest
    else if rel ∈ SPATIAL_RELATIONS then
      (match allowedSpatial with
       | some srels =>
         if rel ∈ srels then rel :: validLoop subj obj allowedSpatial existingFamily rest
         else validLoop subj obj allowedSpatial existingFamily rest
       | none => validLoop subj obj allowedSpatial existingFamily rest)
    else rel :: validLoop subj obj allowedSpatial existingFamily rest

def validRelationsBetween (subj obj : String) (relations : List String)
    (spatialMap : SpatialMap) (pairState : PairState) : List String :=
  validLoop subj obj (lookupA (subj, obj) spatialMap) (lookupA (pairKey subj obj) pairState)
    relations

/-! ## Path Builder and Extra-Fact Sampler choice steps -/

/-- The `for name in candidates` loop of `_pick_next_relation`, collecting
shuffled candidates that admit at least one legal relation. -/
def viableLoop (current : String) (names relations : List String)
    (spatialMap : SpatialMap) (pairState : PairState) :
    List String → List (String × List String)
  | [] => []
  | name :: rest =>
    if names.length > 1 ∧ name = current then
      viableLoop current names relations spatialMap pairState rest
    else
      if validRelationsBetween current name relations spatialMap pairState = [] then
        viableLoop current names relations spatialMap pairState rest
      else
        (name, validRelationsBetween current name relations spatialMap pairState) ::
          viableLoop current names relations spatialMap pairState rest

def _pickNextRelation (current : String) (names relations : List String)
    (spatialMap : SpatialMap) (pairState : PairState) (g : Rng) :
    Except String ((String × String) × Rng) :=
  match viableLoop current names relations spatialMap pairState (shuffleL names g).1 with
  | v :: vs =>
    match chooseE (v :: vs) (shuffleL names g).2 with
    | .error e => .error e
    | .ok ((nextName, valid), g₂) =>
      match chooseE valid g₂ with
      | .error e => .error e
      | .ok (rel, g₃) => .ok ((nextName, rel), g₃)
  | [] =>
    match validRelationsBetween current current relations spatialMap pairState with
    | [] => .error "Unable to find a valid relation for path construction."
    | s0 :: ss =>
      match chooseE (s0 :: ss) (shuffleL names g).2 with
      | .error e => .error e
      | .ok (rel, g₂) => .ok ((current, rel), g₂)

/-- The inner loop of `_pick_relation_pair` for a fixed subject. -/
def pairViableInner (subj : String) (names relations : List String)
    (spatialMap : SpatialMap) (pairState : PairState) :
    List String → List (String × String × List String)
  | [] => []
  | obj :: rest =>
    if names.length > 1 ∧ subj = obj then
      pairViableInner subj names relations spatialMap pairState rest
    else
      if validRelationsBetween subj obj relations spatialMap pairState = [] then
        pairViableInner subj names relations spatialMap pairState rest
      else
        (subj, obj, validRelationsBetween subj obj relations spatialMap pairState) ::
          pairViableInner subj names relations spatialMap pairState rest

/-- The outer loop of `_pick_relation_pair`. -/
def pairViableOuter (names relations : List String) (spatialMap : SpatialMap)
    (pairState : PairState) : List String → List (String × String × List String)
  | [] => []
  | subj :: rest =>
    pairViableInner subj names relations spatialMap pairState names ++
      pairViableOuter names relations spatialMap pairState rest

/-- The double loop of `_pick_relation_pair`, collecting every ordered pair
that admits at least one legal relation, with its legal-relation list. -/
def pairViable (names relations : List String) (spatialMap : SpatialMap)
    (pairState : PairState) : List (String × String × List String) :=
  pairViableOuter names relations spatialMap pairState names

def _pickRelationPair (names relations : List String) (spatialMap : SpatialMap)
    (pairState : PairState) (g : Rng) :
    Except String ((String × String × String) × Rng) :=
  match pairViable names relations spatialMap pairState with
  | [] => .error "Unable to identify any valid relation pair."
  | v :: vs =>
    match chooseE (v :: vs) g with
    | .error e => .error e
    | .ok ((subj, obj, valid), g₁) =>
      match chooseE valid g₁ with
      | .error e => .error e
      | .ok (rel, g₂) => .ok ((subj, obj, rel), g₂)

/-! ## Relation Pool Selector -/

/-- The `add_relations` helper of `_relation_pool`: append unseen items. -/
def dedupAdd (acc : List String) (items : List String) : List String :=
  items.foldl (fun a rel => if rel ∈ a then a else a ++ [rel]) acc

def _relationPool (seatingKind : String) (relationProfile : Option String)
    (difficulty : String) : Except String (List String) :=
  if seatingKind ∉ VALID_SEATING_KINDS then
    .error ("Unsupported seating kind: " ++ seatingKind)
  else
    let difficultyNormalized := pyLower (if difficulty = "" then "low" else difficulty)
    if difficultyNormalized ∉ VALID_DIFFICULTY_LEVELS then
      .error ("Unsupported difficulty level: " ++ difficulty)
    else
      let profile := pyLower (relationProfile.getD "")
      let profile := if profile = "" then "auto" else profile
      let groups : Except String (List String) :=
        if profile = "auto" then .ok ["common", seatingKind]
        else if profile = "social" then .ok ["common"]
        else if profile = "spatial" then .ok [seatingKind]
        else if profile = "all" then .ok ["common", "linear", "circular"]
        else .error ("Unsupported relation profile: " ++ (relationProfile.getD "None"))
      match groups with
      | .error e => .error e
      | .ok gs =>
        .ok (gs.foldl (fun acc group =>
          dedupAdd (dedupAdd acc (RELATION_SETS group))
            (DIFFICULTY_ADDITIONS difficultyNormalized group)) [])

/-! ## Candidate-edge enumeration (`_candidate_edges`) -/

def candidateInner (subj : String) (names relations : List String) (spatialMap : SpatialMap)
    (st : PairState × List (String × String × String) × List (String × String × String)) :
    List String → PairState × List (String × String × String) × List (String × String × String)
  | [] => st
  | obj :: rest =>
    let (pairState, seen, edges) := st
    if names.length > 1 ∧ subj = obj ∧ relations.any (fun r => r ∈ SPATIAL_RELATIONS) then
      candidateInner subj names relations spatialMap (pairState, seen, edges) rest
    else
      let valids := validRelationsBetween subj obj relations spatialMap pairState
      let (seen', edges') := valids.foldl (fun (p : _ × _) rel =>
        let key := (subj, rel, obj)
        if key ∈ p.1 then p else (p.1 ++ [key], p.2 ++ [key])) (seen, edges)
      let pairState' := valids.foldl (fun ps rel => registerFamilyRelation ps subj rel obj)
        pairState
      candidateInner subj names relations spatialMap (pairState', seen', edges') rest

def candidateOuter (names relations : List String) (spatialMap : SpatialMap)
    (st : PairState × List (String × String × String) × List (String × String × String)) :
    List String → PairState × List (String × String × String) × List (String × String × String)
  | [] => st
  | subj :: rest =>
    candidateOuter names relations spatialMap
      (candidateInner subj names relations spatialMap st names) rest

def _candidateEdges (names relations : List String) (spatialMap : SpatialMap) :
    List (String × String × String) :=
  (candidateOuter names relations spatialMap ([], [], []) names).2.2

/-! ## Fact construction -/

def ID_CHARS : List Char := "abcdefghijklmnopqrstuvwxyz0123456789".toList

/-- The `random.choices(ascii_lowercase + digits, k=k)` draw of `_rand_id`. -/
def randChars : Nat → Rng → List Char × Rng
  | 0, g => ([], g)
  | k + 1, g =>
    let (v, g') := rngNext g
    let c := ID_CHARS.getD (v % ID_CHARS.length) 'a'
    let (cs, g'') := randChars k g'
    (c :: cs, g'')

def _randId (pre : String) (g : Rng) : String × Rng :=
  let (cs, g') := randChars 6 g
  (pre ++ "_" ++ String.mk cs, g')

def _makeNames (n : Nat) (allowDuplicates : Bool) (g : Rng) : List String × Rng :=
  if allowDuplicates then
    (List.range n).foldl (fun (p : List String × Rng) _ =>
      match chooseE FIRST_NAMES p.2 with
      | .ok (x, g') => (p.1 ++ [x], g')
      | .error _ => p) ([], g)
  else
    let (chosen, g') := sampleL FIRST_NAMES (min n FIRST_NAMES.length) g
    let extra := (List.range (n - FIRST_NAMES.length)).map
      (fun i => "Name" ++ toString (i + 1))
    (chosen ++ extra, g')

def _emitFact (a rel b : String) (g : Rng) : Fact × Rng :=
  (⟨(_randId "f" g).1, a, rel, b⟩, (_randId "f" g).2)

def _addBidirectionalFacts (a rel b : String) (g : Rng) : List Fact × Rng :=
  match lookupA rel INVERSE with
  | none => ([(_emitFact a rel b g).1], (_emitFact a rel b g).2)
  | some inv =>
    ([(_emitFact a rel b g).1, (_emitFact b inv a (_emitFact a rel b g).2).1],
      (_emitFact b inv a (_emitFact a rel b g).2).2)

/-! ## Fact Deduplicator / Renderer -/

def canonRel (rel : String) : String :=
  ((lookupA rel CANONICAL_RELATIONS).getD (rel, false)).1

def canonSwap (rel : String) : Bool :=
  ((lookupA rel CANONICAL_RELATIONS).getD (rel, false)).2

/-- The canonical-direction entity pair of a fact, before symmetric reordering. -/
def canonPairBase (f : Fact) : String × String :=
  if canonSwap f.rel then (f.obj, f.subj) else (f.subj, f.obj)

def canonKey (f : Fact) : String × String × String :=
  if lookupA (canonRel f.rel) INVERSE = some (canonRel f.rel) ∧
      pyLt (canonPairBase f).2 (canonPairBase f).1 then
    ((canonPairBase f).2, canonRel f.rel, (canonPairBase f).1)
  else
    ((canonPairBase f).1, canonRel f.rel, (canonPairBase f).2)

def renderTriple (t : String × String × String) : String :=
  t.1 ++ ":" ++ t.2.1 ++ " -> " ++ t.2.2

def graphDedup (facts : List Fact) : List ((String × String × String) × String) :=
  facts.foldl (fun d f => insertA (canonKey f) (renderTriple (canonKey f)) d) []

def tripleLt (a b : String × String × String) : Prop :=
  pyLt a.1 b.1 = true ∨
    (a.1 = b.1 ∧ (pyLt a.2.1 b.2.1 = true ∨ (a.2.1 = b.2.1 ∧ pyLt a.2.2 b.2.2 = true)))

instance : DecidableRel tripleLt := fun a b => by
  unfold tripleLt; infer_instance

/-- The ascending key order used by `sorted(dedup.items(), key=...)`. -/
def dotLe (p q : (String × String × String) × String) : Prop := ¬ tripleLt q.1 p.1

instance : DecidableRel dotLe := fun a b => by
  unfold dotLe; infer_instance

/-- `sorted(dedup.items(), key=lambda item: item[0])`. -/
def sortedDot (facts : List Fact) : List ((String × String × String) × String) :=
  List.insertionSort dotLe (graphDedup facts)

def _graphToDot (facts : List Fact) : String :=
  String.intercalate "\n" ((sortedDot facts).map (·.2))

def _dedupeFacts (facts : List Fact) : List Fact :=
  (facts.foldl (fun (p : List (String × String × String) × List Fact) f =>
    let key := (f.subj, f.rel, f.obj)
    if key ∈ p.1 then p else (p.1 ++ [key], p.2 ++ [f])) ([], [])).2

/-! ## Path Builder -/

def buildPathLoop (names relations : List String) (spatialMap : SpatialMap) :
    Nat → String → PairState → List Fact → List String → Rng →
    Except String (List Fact × List String × PairState × Rng)
  | 0, _current, pairState, pathFacts, pathIds, g => .ok (pathFacts, pathIds, pairState, g)
  | steps + 1, current, pairState, pathFacts, pathIds, g =>
    match _pickNextRelation current names relations spatialMap pairState g with
    | .error e => .error e
    | .ok ((nextName, rel), g₁) =>
      let (pair, g₂) := _addBidirectionalFacts current rel nextName g₁
      let pairState' := registerFamilyRelation pairState current rel nextName
      buildPathLoop names relations spatialMap steps nextName pairState'
        (pathFacts ++ pair) (pathIds ++ [(pair.headD default).id]) g₂

def _buildPath (names : List String) (minLen : Nat) (relations : List String)
    (spatialMap : SpatialMap) (pairState : PairState) (g : Rng) :
    Except String (List Fact × List String × PairState × Rng) :=
  let (slack, g₁) := randInt 0 2 g
  let targetLen := max minLen 1 + slack
  match chooseE names g₁ with
  | .error e => .error e
  | .ok (start, g₂) =>
    buildPathLoop names relations spatialMap targetLen start pairState [] [] g₂

/-! ## Extra-Fact Sampler loop -/

def extraLoop (names relations : List String) (spatialMap : SpatialMap) :
    Nat → PairState → List Fact → Rng → List Fact × PairState × Rng
  | 0, pairState, acc, g => (acc, pairState, g)
  | k + 1, pairState, acc, g =>
    match _pickRelationPair names relations spatialMap pairState g with
    | .error _ => (acc, pairState, g)
    | .ok ((a, b, rel), g₁) =>
      let (pair, g₂) := _addBidirectionalFacts a rel b g₁
      extraLoop names relations spatialMap k (registerFamilyRelation pairState a rel b)
        (acc ++ pair) g₂

/-! ## Solution summary -/

def buildSummary (idToFact : List (String × Fact)) : List String → List String
  | [] => []
  | factId :: rest =>
    match lookupA factId idToFact with
    | none => buildSummary idToFact rest
    | some f => (f.subj ++ ":" ++ f.rel ++ " -> " ++ f.obj) :: buildSummary idToFact rest

def mkIdToFact (facts : List Fact) : List (String × Fact) :=
  facts.foldl (fun m f => insertA f.id f m) []

/-! ## Entry point `generate` -/

/-- The tail of `generate`, from the spatial-map construction to the
returned `Puzzle`. -/
def generateTail (names relations : List String) (seating : Seating)
    (nPeople minGraphLen : Nat) (dense : Bool) (g : Rng) : Except String Puzzle :=
  let spatialMap := buildSpatialRelationMap seating
  let candidates := _candidateEdges names relations spatialMap
  let maxPath := candidates.length
  if maxPath = 0 then
    .error "No valid relations can be formed with the current configuration."
  else if minGraphLen > maxPath then
    .error ("Requested path length " ++ toString minGraphLen ++
      " exceeds available unique relations (" ++ toString maxPath ++ ").")
  else
    match _buildPath names minGraphLen relations spatialMap [] g with
    | .error e => .error e
    | .ok (pathFacts, pathIds, pairState, g) =>
      let (extraEdges, g) := randInt (max 0 (nPeople - 2)) (nPeople + 2) g
      let (extraFacts, _pairState', _gEnd) :=
        extraLoop names relations spatialMap extraEdges pairState [] g
      let allFacts := _dedupeFacts (pathFacts ++ extraFacts)
      let dot := _graphToDot allFacts
      let idToFact := mkIdToFact allFacts
      let summary := buildSummary idToFact pathIds
      .ok ⟨names, allFacts, seating, pathIds, dot, summary, dense⟩

def generate (nPeople minGraphLen : Nat) (seed : Option Int)
    (seatingKind : Option String) (relationProfile : Option String)
    (difficulty : String) (dense : Bool) (g0 : Rng) : Except String Puzzle :=
  let g : Rng := match seed with
    | some s => seedRng s
    | none => g0
  let (names, g) := _makeNames nPeople false g
  let kindRes : Except String (String × Rng) := match seatingKind with
    | none =>
      match chooseE VALID_SEATING_KINDS g with
      | .error e => .error e
      | .ok (k, g') => .ok (k, g')
    | some sk =>
      let k := pyLower sk
      if k ∉ VALID_SEATING_KINDS then .error ("Unsupported seating kind: " ++ sk)
      else .ok (k, g)
  match kindRes with
  | .error e => .error e
  | .ok (kind, g) =>
    let diffLevel := pyLower (if difficulty = "" then "low" else difficulty)
    if diffLevel ∉ VALID_DIFFICULTY_LEVELS then
      .error ("Unsupported difficulty level: " ++ difficulty)
    else
      let (order, g) := shuffleL names g
      let extraSlots :=
        if diffLevel = "medium" then 1
        else if diffLevel = "high" then max 1 (names.length / 3)
        else 0
      let empties := (List.range extraSlots).map (fun i => EMPTY_MARKER ++ toString (i + 1))
      let (seatingList, g) := shuffleL (order ++ empties) g
      let seats := (List.range seatingList.length).map (fun i => (i + 1, seatingList.getD i ""))
      let seating : Seating := ⟨kind, seats⟩
      match _relationPool kind relationProfile diffLevel with
      | .error e => .error e
      | .ok relations =>
        if relations ≠ [] ∧ (∀ rel ∈ relations, rel ∈ SPATIAL_RELATIONS) ∧ names.length < 2 then
          .error "Spatial relations require at least two people."
        else
          generateTail names relations seating nPeople minGraphLen dense g

/-! ## Basic lemmas about the association-list primitives -/

theorem lookupA_mem {κ α : Type} [DecidableEq κ] {k : κ} {v : α} :
    ∀ {l : List (κ × α)}, lookupA k l = some v → (k, v) ∈ l := by
  intro l
  induction l with
  | nil => intro h; simp [lookupA] at h
  | cons p rest ih =>
    intro h
    rw [lookupA] at h
    by_cases hk : k = p.1
    · rw [if_pos hk] at h
      injection h with h
      subst h
      exact List.mem_cons.mpr (Or.inl (by rw [hk]))
    · rw [if_neg hk] at h
      exact List.mem_cons_of_mem _ (ih h)

theorem lookupA_insertA {κ α : Type} [DecidableEq κ] (k k' : κ) (v : α) :
    ∀ (l : List (κ × α)),
      lookupA k' (insertA k v l) = if k' = k then some v else lookupA k' l := by
  intro l
  induction l with
  | nil => simp [insertA, lookupA]
  | cons p rest ih =>
    rw [insertA]
    by_cases hk : k = p.1
    · rw [if_pos hk]
      by_cases hk' : k' = k
      · rw [lookupA, if_pos hk', if_pos hk']
      · rw [lookupA, if_neg hk', if_neg hk', lookupA,
          if_neg (fun h : k' = p.1 => hk' (h.trans hk.symm))]
    · rw [if_neg hk]
      by_cases hk' : k' = p.1
      · rw [lookupA, if_pos hk', if_neg (fun h : k' = k => hk (h.symm.trans hk')),
          lookupA, if_pos hk']
      · rw [lookupA, if_neg hk', ih]
        by_cases hk'' : k' = k
        · rw [if_pos hk'', if_pos hk'']
        · rw [if_neg hk'', if_neg hk'', lookupA, if_neg hk']

theorem getD_mem {α : Type} (l : List α) (i : Nat) (d : α) (hd : d ∈ l) : l.getD i d ∈ l := by
  by_cases hi : i < l.length
  · rw [List.getD_eq_getElem l d hi]
    exact l.getElem_mem hi
  · rw [List.getD_eq_default l d (le_of_not_lt hi)]
    exact hd

theorem chooseE_mem {α : Type} {l : List α} {g : Rng} {x : α} {g' : Rng}
    (h : chooseE l g = .ok (x, g')) : x ∈ l := by
  cases l with
  | nil => simp [chooseE] at h
  | cons a as =>
    simp only [chooseE] at h
    injection h with h'
    rw [Prod.mk.injEq] at h'
    exact h'.1 ▸ getD_mem _ _ _ (List.mem_cons_self a as)

/-! ## C3: characterization of the Constraint Filter -/

/-- The legality conditions of the specification's Constraint Filter, stated
directly from its words: no family-exclusive self relation, no family-exclusive
relation conflicting with the committed category, spatial relations only where
the geometry map records them, everything else unconditionally. -/
def legalPerSpec (subj obj rel : String) (spatialMap : SpatialMap)
    (pairState : PairState) : Prop :=
  (relationFamilyType rel ≠ none → subj ≠ obj) ∧
  (∀ committed, lookupA (pairKey subj obj) pairState = some committed →
    ∀ ft, relationFamilyType rel = some ft → ft = committed) ∧
  (rel ∈ SPATIAL_RELATIONS →
    ∃ srels, lookupA (subj, obj) spatialMap = some srels ∧ rel ∈ srels)

theorem validLoop_cons (subj obj r : String) (asp : Option (List String))
    (ef : Option String) (rest : List String) :
    validLoop subj obj asp ef (r :: rest) =
      if (¬ (subj = obj ∧ relationFamilyType r ≠ none)) ∧
         familyConflict ef (relationFamilyType r) = false ∧
         (r ∈ SPATIAL_RELATIONS → ∃ srels, asp = some srels ∧ r ∈ srels) then
        r :: validLoop subj obj asp ef rest
      else validLoop subj obj asp ef rest := by
  simp only [validLoop]
  by_cases h1 : subj = obj ∧ relationFamilyType r ≠ none
  · rw [if_pos h1, if_neg (fun hc => hc.1 h1)]
  · rw [if_neg h1]
    by_cases h2 : familyConflict ef (relationFamilyType r) = true
    · rw [if_pos h2, if_neg (fun hc => by simp [hc.2.1] at h2)]
    · rw [if_neg h2]
      have h2' : familyConflict ef (relationFamilyType r) = false := Bool.eq_false_iff.mpr h2
      by_cases h3 : r ∈ SPATIAL_RELATIONS
      · rw [if_pos h3]
        cases asp with
        | none =>
          rw [if_neg (fun hc => by
            obtain ⟨s, hs, -⟩ := hc.2.2 h3
            exact Option.noConfusion hs)]
        | some srels =>
          show (if r ∈ srels then r :: validLoop subj obj (some srels) ef rest
            else validLoop subj obj (some srels) ef rest) = _
          by_cases hr : r ∈ srels
          · rw [if_pos hr, if_pos ⟨h1, h2', fun _ => ⟨srels, rfl, hr⟩⟩]
          · rw [if_neg hr, if_neg (fun hc => by
              obtain ⟨s, hs, hrs⟩ := hc.2.2 h3
              injection hs with hs
              exact hr (hs ▸ hrs))]
      · rw [if_neg h3, if_pos ⟨h1, h2', fun hc => absurd hc h3⟩]

theorem mem_validLoop {subj obj rel : String} {asp : Option (List String)}
    {ef : Option String} {rels : List String} :
    rel ∈ validLoop subj obj asp ef rels ↔
      rel ∈ rels ∧
      (¬ (subj = obj ∧ relationFamilyType rel ≠ none)) ∧
      familyConflict ef (relationFamilyType rel) = false ∧
      (rel ∈ SPATIAL_RELATIONS → ∃ srels, asp = some srels ∧ rel ∈ srels) := by
  induction rels with
  | nil => simp [validLoop]
  | cons r rest ih =>
    rw [validLoop_cons]
    split
    · rename_i hcond
      constructor
      · intro hm
        rcases List.mem_cons.mp hm with rfl | h
        · exact ⟨List.mem_cons_self _ _, hcond⟩
        · obtain ⟨h1, h2⟩ := ih.mp h
          exact ⟨List.mem_cons_of_mem _ h1, h2⟩
      · rintro ⟨hm, hc⟩
        rcases List.mem_cons.mp hm with rfl | h
        · exact List.mem_cons_self _ _
        · exact List.mem_cons_of_mem _ (ih.mpr ⟨h, hc⟩)
    · rename_i hcond
      rw [ih]
      constructor
      · rintro ⟨h1, h2⟩
        exact ⟨List.mem_cons_of_mem _ h1, h2⟩
      · rintro ⟨hm, hc⟩
        rcases List.mem_cons.mp hm with rfl | h
        · exact absurd hc hcond
        · exact ⟨h, hc⟩

theorem familyConflict_eq_false_iff (ef ft : Option String) :
    familyConflict ef ft = false ↔
      (∀ c, ef = some c → ∀ d, ft = some d → d = c) := by
  cases ef <;> cases ft <;> simp [familyConflict] <;> tauto

/-- **C3.** The Constraint Filter returns exactly the candidate relations that
are legal per the specification: family-exclusive labels are excluded on
`subj = obj` and on conflict with the committed family category, spatial labels
require a geometry-map entry, and everything else passes unconditionally. -/
theorem constraint_filter_characterization (subj obj rel : String)
    (relations : List String) (spatialMap : SpatialMap) (pairState : PairState) :
    rel ∈ validRelationsBetween subj obj relations spatialMap pairState ↔
      rel ∈ relations ∧ legalPerSpec subj obj rel spatialMap pairState := by
  rw [validRelationsBetween, mem_validLoop, legalPerSpec]
  constructor
  · rintro ⟨hm, h1, h2, h3⟩
    refine ⟨hm, ?_, ?_, h3⟩
    · intro hft heq
      exact h1 ⟨heq, hft⟩
    · intro c hc d hd
      exact (familyConflict_eq_false_iff _ _).mp h2 c hc d hd
  · rintro ⟨hm, h1, h2, h3⟩
    refine ⟨hm, ?_, ?_, h3⟩
    · rintro ⟨heq, hft⟩
      exact h1 hft heq
    · exact (familyConflict_eq_false_iff _ _).mpr h2

/-! ## C2: seeded generation is deterministic -/

/-- **C2.** With a non-`None` seed, `generate` is a function of its arguments
alone: the ambient random source is discarded and every random decision,
including fact-ID generation, derives from the seeded source, so two calls
with the same seed return structurally identical Puzzles (same names, facts,
IDs, seating, solution path, graph description). -/
theorem generate_seed_deterministic (nPeople minGraphLen : Nat) (s : Int)
    (seatingKind relationProfile : Option String) (difficulty : String)
    (dense : Bool) (g g' : Rng) :
    generate nPeople minGraphLen (some s) seatingKind relationProfile difficulty dense g =
      generate nPeople minGraphLen (some s) seatingKind relationProfile difficulty dense g' := rfl

/-! ## Inversion of a successful `generate` run -/

theorem generateTail_ok_inversion {names relations : List String} {seating : Seating}
    {nPeople minGraphLen : Nat} {dense : Bool} {g0 : Rng} {pz : Puzzle}
    (h : generateTail names relations seating nPeople minGraphLen dense g0 = .ok pz) :
    ∃ (spatialMap : SpatialMap)
      (pathFacts : List Fact) (pathIds : List String) (ps₁ : PairState) (g₂ g₃ g₄ : Rng)
      (extraEdges : Nat) (extraFacts : List Fact) (ps₂ : PairState),
      spatialMap = buildSpatialRelationMap seating ∧
      _buildPath names minGraphLen relations spatialMap [] g0 =
        .ok (pathFacts, pathIds, ps₁, g₂) ∧
      extraLoop names relations spatialMap extraEdges ps₁ [] g₃ =
        (extraFacts, ps₂, g₄) ∧
      pz.names = names ∧
      pz.facts = _dedupeFacts (pathFacts ++ extraFacts) ∧
      pz.solution_path = pathIds ∧
      pz.dot = _graphToDot pz.facts ∧
      pz.solution_summary = buildSummary (mkIdToFact pz.facts) pz.solution_path ∧
      pz.dense = dense := by
  simp only [generateTail] at h
  repeat' split at h
  all_goals try exact Except.noConfusion h
  all_goals
    rename_i pathFacts pathIds ps₁ g₂ hbp
    injection h with h
    subst h
    exact ⟨buildSpatialRelationMap seating, pathFacts, pathIds, ps₁, g₂,
      (randInt (max 0 (nPeople - 2)) (nPeople + 2) g₂).2,
      (extraLoop names relations (buildSpatialRelationMap seating)
        (randInt (max 0 (nPeople - 2)) (nPeople + 2) g₂).1 ps₁ []
        (randInt (max 0 (nPeople - 2)) (nPeople + 2) g₂).2).2.2,
      (randInt (max 0 (nPeople - 2)) (nPeople + 2) g₂).1,
      (extraLoop names relations (buildSpatialRelationMap seating)
        (randInt (max 0 (nPeople - 2)) (nPeople + 2) g₂).1 ps₁ []
        (randInt (max 0 (nPeople - 2)) (nPeople + 2) g₂).2).1,
      (extraLoop names relations (buildSpatialRelationMap seating)
        (randInt (max 0 (nPeople - 2)) (nPeople + 2) g₂).1 ps₁ []
        (randInt (max 0 (nPeople - 2)) (nPeople + 2) g₂).2).2.1,
      rfl, hbp, rfl, rfl, rfl, rfl, rfl, rfl, rfl⟩

theorem generate_ok_tail {nPeople minGraphLen : Nat} {seed : Option Int}
    {seatingKind relationProfile : Option String} {difficulty : String}
    {dense : Bool} {g0 : Rng} {pz : Puzzle}
    (h : generate nPeople minGraphLen seed seatingKind relationProfile difficulty
      dense g0 = .ok pz) :
    ∃ (names relations : List String) (seating : Seating) (g : Rng),
      generateTail names relations seating nPeople minGraphLen dense g = .ok pz := by
  simp only [generate] at h
  repeat' split at h
  all_goals try exact Except.noConfusion h
  all_goals exact ⟨_, _, _, _, h⟩

theorem generate_ok_inversion {nPeople minGraphLen : Nat} {seed : Option Int}
    {seatingKind relationProfile : Option String} {difficulty : String}
    {dense : Bool} {g0 : Rng} {pz : Puzzle}
    (h : generate nPeople minGraphLen seed seatingKind relationProfile difficulty
      dense g0 = .ok pz) :
    ∃ (names relations : List String) (spatialMap : SpatialMap)
      (pathFacts : List Fact) (pathIds : List String) (ps₁ : PairState) (g₁ g₂ g₃ g₄ : Rng)
      (extraEdges : Nat) (extraFacts : List Fact) (ps₂ : PairState),
      _buildPath names minGraphLen relations spatialMap [] g₁ =
        .ok (pathFacts, pathIds, ps₁, g₂) ∧
      extraLoop names relations spatialMap extraEdges ps₁ [] g₃ =
        (extraFacts, ps₂, g₄) ∧
      pz.names = names ∧
      pz.facts = _dedupeFacts (pathFacts ++ extraFacts) ∧
      pz.solution_path = pathIds ∧
      pz.dot = _graphToDot pz.facts ∧
      pz.solution_summary = buildSummary (mkIdToFact pz.facts) pz.solution_path ∧
      pz.dense = dense := by
  obtain ⟨names, relations, seating, g, ht⟩ := generate_ok_tail h
  obtain ⟨smap, pathFacts, pathIds, ps₁, g₂, g₃, g₄, k, extraFacts, ps₂, -, hbp, hel,
    h1, h2, h3, h4, h5, h6⟩ := generateTail_ok_inversion ht
  exact ⟨names, relations, smap, pathFacts, pathIds, ps₁, g, g₂, g₃, g₄, k, extraFacts,
    ps₂, hbp, hel, h1, h2, h3, h4, h5, h6⟩

/-! ## C4: solution-path length bounds -/

theorem buildPathLoop_ids_length (names relations : List String) (spatialMap : SpatialMap) :
    ∀ (steps : Nat) (current : String) (ps : PairState) (facts : List Fact)
      (ids : List String) (g : Rng) {facts' : List Fact} {ids' : List String}
      {ps' : PairState} {g' : Rng},
      buildPathLoop names relations spatialMap steps current ps facts ids g =
        .ok (facts', ids', ps', g') → ids'.length = ids.length + steps := by
  intro steps
  induction steps with
  | zero =>
    intro current ps facts ids g facts' ids' ps' g' h
    rw [buildPathLoop] at h
    injection h with h
    simp only [Prod.mk.injEq] at h
    rw [← h.2.1]
    rfl
  | succ k ih =>
    intro current ps facts ids g facts' ids' ps' g' h
    rw [buildPathLoop] at h
    split at h
    next => exact absurd h (by simp)
    next nextName rel g₁ hpick =>
      have := ih nextName _ _ _ _ h
      simp only [List.length_append, List.length_cons, List.length_nil] at this
      omega

theorem buildPath_ids_length {names relations : List String} {spatialMap : SpatialMap}
    {minLen : Nat} {ps : PairState} {g : Rng} {facts : List Fact}
    {ids : List String} {ps' : PairState} {g' : Rng}
    (h : _buildPath names minLen relations spatialMap ps g = .ok (facts, ids, ps', g')) :
    max minLen 1 ≤ ids.length ∧ ids.length ≤ max minLen 1 + 2 := by
  rw [_buildPath] at h
  split at h
  next slack g₁ hrand =>
    split at h
    next => exact absurd h (by simp)
    next start g₂ hch =>
      have hlen := buildPathLoop_ids_length names relations spatialMap _ start ps [] [] g₂ h
      simp only [List.length_nil, Nat.zero_add] at hlen
      have hs : slack ≤ 2 := by
        have heq : (randInt 0 2 g).1 = slack := by rw [hrand]
        simp only [randInt, rngNext] at heq
        omega
      omega

/-- **C4 (amended).** For every successful `generate` call, the solution path
has length between `max(min_path_length, 1)` and `max(min_path_length, 1) + 2`.
(When the requested minimum is `0` the length can thus reach `3`, which exceeds
`minimum + 2`; for every minimum `≥ 1` the claimed bounds `[m, m+2]` hold.) -/
theorem generate_path_length_bounds {nPeople minGraphLen : Nat} {seed : Option Int}
    {seatingKind relationProfile : Option String} {difficulty : String}
    {dense : Bool} {g0 : Rng} {pz : Puzzle}
    (h : generate nPeople minGraphLen seed seatingKind relationProfile difficulty
      dense g0 = .ok pz) :
    max minGraphLen 1 ≤ pz.solution_path.length ∧
      pz.solution_path.length ≤ max minGraphLen 1 + 2 := by
  obtain ⟨names, relations, smap, pathFacts, pathIds, ps₁, g₁, g₂, g₃, g₄, k, extraFacts,
    ps₂, hbp, -, -, -, hpath, -⟩ := generate_ok_inversion h
  rw [hpath]
  exact buildPath_ids_length hbp

def c4Pz : Puzzle :=
  (generate 2 0 none (some "linear") (some "social") "low" false (fun n => n + 1)).toOption.getD
    default

/-- **C4 (counterexample).** With requested minimum path length `0`, a
successful run can return a solution path of length `3`, strictly more than
`minimum + 2 = 2`: the claimed upper bound fails at `min_path_length = 0`. -/
theorem c4_counterexample :
    generate 2 0 none (some "linear") (some "social") "low" false (fun n => n + 1) =
      .ok c4Pz ∧
    c4Pz.solution_path.length = 3 ∧ ¬ (c4Pz.solution_path.length ≤ 0 + 2) := by
  refine ⟨rfl, rfl, by decide⟩

def c4WitnessPz : Puzzle :=
  (generate 3 2 (some 42) (some "linear") (some "social") "low" false (fun _ => 0)).toOption.getD
    default

/-- Witness for the amended C4 bounds at a concrete input. -/
theorem generate_path_length_bounds_witness :
    max 2 1 ≤ c4WitnessPz.solution_path.length ∧
      c4WitnessPz.solution_path.length ≤ max 2 1 + 2 :=
  @generate_path_length_bounds 3 2 (some 42) (some "linear") (some "social") "low" false
    (fun _ => 0) c4WitnessPz rfl

/-! ## C1: family-category consistency -/

def tripleOf (f : Fact) : String × String × String := (f.subj, f.rel, f.obj)

/-- The committed pair-state dominates the fact set: every family-exclusive
fact is a non-self fact whose category is the pair's committed category. -/
def Dominates (ps : PairState) (facts : List Fact) : Prop :=
  ∀ f ∈ facts, ∀ c, relationFamilyType f.rel = some c →
    f.subj ≠ f.obj ∧ lookupA (pairKey f.subj f.obj) ps = some c

/-- No unordered entity pair carries two facts of different family-exclusive
categories. -/
def FamilyConsistent (facts : List Fact) : Prop :=
  ∀ f ∈ facts, ∀ f' ∈ facts, pairKey f.subj f.obj = pairKey f'.subj f'.obj →
    ∀ c c', relationFamilyType f.rel = some c → relationFamilyType f'.rel = some c' →
      c = c'

theorem charsLt_asymm : ∀ {cs ds : List Char}, charsLt cs ds = true → charsLt ds cs = false := by
  intro cs
  induction cs with
  | nil =>
    intro ds h
    cases ds with
    | nil => simp [charsLt] at h
    | cons d ds => simp [charsLt]
  | cons c cs ih =>
    intro ds h
    cases ds with
    | nil => simp [charsLt] at h
    | cons d ds =>
      rw [charsLt] at h ⊢
      by_cases h1 : c.toNat < d.toNat
      · rw [if_neg (Nat.lt_asymm h1), if_pos h1]
      · rw [if_neg h1] at h
        by_cases h2 : d.toNat < c.toNat
        · rw [if_pos h2] at h
          exact absurd h (by simp)
        · rw [if_neg h2] at h
          rw [if_neg h2, if_neg h1]
          exact ih h

theorem charsLt_conn : ∀ {cs ds : List Char},
    charsLt cs ds = false → charsLt ds cs = false → cs = ds := by
  intro cs
  induction cs with
  | nil =>
    intro ds h1 _h2
    cases ds with
    | nil => rfl
    | cons d ds => simp [charsLt] at h1
  | cons c cs ih =>
    intro ds h1 h2
    cases ds with
    | nil => simp [charsLt] at h2
    | cons d ds =>
      rw [charsLt] at h1 h2
      by_cases hcd : c.toNat < d.toNat
      · rw [if_pos hcd] at h1
        exact absurd h1 (by simp)
      · rw [if_neg hcd] at h1
        by_cases hdc : d.toNat < c.toNat
        · rw [if_pos hdc] at h1
          rw [if_neg (Nat.lt_asymm hdc), if_pos hdc] at h2
          exact absurd h2 (by simp)
        · rw [if_neg hdc] at h1
          rw [if_neg hdc, if_neg hcd] at h2
          have hnat : c.toNat = d.toNat := Nat.le_antisymm (Nat.le_of_not_lt hdc) (Nat.le_of_not_lt hcd)
          have hc : c = d := Char.eq_of_val_eq (by
            apply UInt32.eq_of_val_eq
            exact Fin.ext hnat)
          rw [hc, ih h1 h2]

theorem pyLt_asymm {a b : String} (h : pyLt a b = true) : pyLt b a = false :=
  charsLt_asymm h

theorem pyLt_conn {a b : String} (h1 : pyLt a b = false) (h2 : pyLt b a = false) : a = b := by
  cases a with
  | mk da =>
    cases b with
    | mk db =>
      exact congrArg String.mk (charsLt_conn h1 h2)

theorem pairKey_symm (a b : String) : pairKey a b = pairKey b a := by
  rw [pairKey, pairKey]
  by_cases h1 : pyLt b a = true
  · rw [if_pos h1, if_neg (by rw [pyLt_asymm h1]; exact Bool.false_ne_true)]
  · rw [if_neg h1]
    by_cases h2 : pyLt a b = true
    · rw [if_pos h2]
    · rw [if_neg h2]
      have := pyLt_conn (Bool.eq_false_iff.mpr h2) (Bool.eq_false_iff.mpr h1)
      rw [this]

theorem famType_INVERSE : ∀ p ∈ INVERSE, relationFamilyType p.2 = relationFamilyType p.1 := by
  decide

theorem famType_of_lookup_INVERSE {r r' : String} (h : lookupA r INVERSE = some r') :
    relationFamilyType r' = relationFamilyType r :=
  famType_INVERSE (r, r') (lookupA_mem h)

theorem register_famType_none {ps : PairState} {s r o : String}
    (h : relationFamilyType r = none) : registerFamilyRelation ps s r o = ps := by
  rw [registerFamilyRelation, h]

theorem register_famType_some {ps : PairState} {s r o c : String}
    (h : relationFamilyType r = some c) (hso : s ≠ o) :
    registerFamilyRelation ps s r o = insertA (pairKey s o) c ps := by
  rw [registerFamilyRelation, h]
  exact if_neg hso

/-- Family-category compatibility of a relation with the current tracker,
as guaranteed by the Constraint Filter. -/
def FamCompat (ps : PairState) (s r o : String) : Prop :=
  ∀ c, relationFamilyType r = some c →
    s ≠ o ∧ (lookupA (pairKey s o) ps = none ∨ lookupA (pairKey s o) ps = some c)

theorem famCompat_of_valid {s o : String} {relations : List String}
    {smap : SpatialMap} {ps : PairState} {r : String}
    (h : r ∈ validRelationsBetween s o relations smap ps) : FamCompat ps s r o := by
  intro c hc
  rw [validRelationsBetween, mem_validLoop] at h
  obtain ⟨-, h1, h2, -⟩ := h
  refine ⟨fun heq => h1 ⟨heq, by rw [hc]; exact Option.noConfusion⟩, ?_⟩
  cases hef : lookupA (pairKey s o) ps with
  | none => exact Or.inl rfl
  | some ef =>
    right
    rw [hef, hc] at h2
    simp only [familyConflict, bne_eq_false_iff_eq] at h2
    rw [h2]

theorem register_mono {ps : PairState} {s r o : String} {k : String × String} {c : String}
    (hcompat : FamCompat ps s r o) (hk : lookupA k ps = some c) :
    lookupA k (registerFamilyRelation ps s r o) = some c := by
  cases hr : relationFamilyType r with
  | none => rw [register_famType_none hr]; exact hk
  | some d =>
    obtain ⟨hso, hlk⟩ := hcompat d hr
    rw [register_famType_some hr hso, lookupA_insertA]
    by_cases hkk : k = pairKey s o
    · rw [if_pos hkk]
      rw [hkk] at hk
      rcases hlk with hlk | hlk
      · rw [hk] at hlk; exact Option.noConfusion hlk
      · rw [hk] at hlk
        injection hlk with hlk
        rw [hlk]
    · rw [if_neg hkk]; exact hk

theorem dominates_step {ps : PairState} {facts : List Fact} {s r o : String} {g : Rng}
    (hd : Dominates ps facts) (hcompat : FamCompat ps s r o) :
    Dominates (registerFamilyRelation ps s r o)
      (facts ++ (_addBidirectionalFacts s r o g).1) := by
  intro f hf c hc
  rcases List.mem_append.mp hf with hf | hf
  · obtain ⟨hne, hlk⟩ := hd f hf c hc
    exact ⟨hne, register_mono hcompat hlk⟩
  · have hfacts : f.subj = s ∧ f.rel = r ∧ f.obj = o ∨
        ∃ r', lookupA r INVERSE = some r' ∧ f.subj = o ∧ f.rel = r' ∧ f.obj = s := by
      rw [_addBidirectionalFacts] at hf
      rcases hinv : lookupA r INVERSE with _ | r'
      · rw [hinv] at hf
        simp only [List.mem_singleton] at hf
        left
        rw [hf]
        exact ⟨rfl, rfl, rfl⟩
      · rw [hinv] at hf
        simp only [List.mem_cons, List.mem_singleton, List.not_mem_nil, or_false] at hf
        rcases hf with hf | hf
        · left
          rw [hf]
          exact ⟨rfl, rfl, rfl⟩
        · right
          exact ⟨r', rfl, by rw [hf]; exact ⟨rfl, rfl, rfl⟩⟩
    rcases hfacts with ⟨h1, h2, h3⟩ | ⟨r', hinv, h1, h2, h3⟩
    · rw [h2] at hc
      obtain ⟨hso, -⟩ := hcompat c hc
      rw [h1, h3]
      refine ⟨hso, ?_⟩
      rw [register_famType_some hc hso, lookupA_insertA, if_pos rfl]
    · rw [h2, famType_of_lookup_INVERSE hinv] at hc
      obtain ⟨hso, -⟩ := hcompat c hc
      rw [h1, h3]
      refine ⟨fun heq => hso heq.symm, ?_⟩
      rw [pairKey_symm, register_famType_some hc hso, lookupA_insertA, if_pos rfl]

theorem viableLoop_mem {current : String} {names relations : List String}
    {smap : SpatialMap} {ps : PairState} :
    ∀ {lst : List String} {p : String × List String},
      p ∈ viableLoop current names relations smap ps lst →
      p.2 = validRelationsBetween current p.1 relations smap ps := by
  intro lst
  induction lst with
  | nil => intro p h; simp [viableLoop] at h
  | cons x rest ih =>
    intro p h
    rw [viableLoop] at h
    split at h
    · exact ih h
    · split at h
      · exact ih h
      · rcases List.mem_cons.mp h with rfl | h
        · rfl
        · exact ih h

theorem pickNext_valid {current : String} {names relations : List String}
    {smap : SpatialMap} {ps : PairState} {g : Rng} {nextName rel : String} {g' : Rng}
    (h : _pickNextRelation current names relations smap ps g = .ok ((nextName, rel), g')) :
    rel ∈ validRelationsBetween current nextName relations smap ps := by
  rw [_pickNextRelation] at h
  split at h
  next v vs hviable =>
    split at h
    · exact Except.noConfusion h
    next nm vl g₂ hch =>
      split at h
      · exact Except.noConfusion h
      next r₀ g₃ hch2 =>
        injection h with h
        rw [Prod.mk.injEq, Prod.mk.injEq] at h
        obtain ⟨⟨h1, h2⟩, -⟩ := h
        have hvm : vl = validRelationsBetween current nm relations smap ps :=
          viableLoop_mem (hviable ▸ chooseE_mem hch)
        have hrm := chooseE_mem hch2
        rw [← h1, ← h2]
        rw [hvm] at hrm
        exact hrm
  next hviable =>
    split at h
    · exact Except.noConfusion h
    next s0 ss hself =>
      split at h
      · exact Except.noConfusion h
      next r₀ g₂ hch =>
        injection h with h
        rw [Prod.mk.injEq, Prod.mk.injEq] at h
        obtain ⟨⟨h1, h2⟩, -⟩ := h
        have hrm := chooseE_mem hch
        rw [← h1, ← h2]
        rw [← hself] at hrm
        exact hrm

theorem pairViableInner_mem {subj : String} {names relations : List String}
    {smap : SpatialMap} {ps : PairState} :
    ∀ {lst : List String} {t : String × String × List String},
      t ∈ pairViableInner subj names relations smap ps lst →
      t.2.2 = validRelationsBetween t.1 t.2.1 relations smap ps := by
  intro lst
  induction lst with
  | nil => intro t h; simp [pairViableInner] at h
  | cons obj rest ih =>
    intro t h
    rw [pairViableInner] at h
    split at h
    · exact ih h
    · split at h
      · exact ih h
      · rcases List.mem_cons.mp h with rfl | h
        · rfl
        · exact ih h

theorem pairViable_mem {names relations : List String} {smap : SpatialMap}
    {ps : PairState} {t : String × String × List String}
    (ht : t ∈ pairViable names relations smap ps) :
    t.2.2 = validRelationsBetween t.1 t.2.1 relations smap ps := by
  rw [pairViable] at ht
  have hgen : ∀ (lst : List String),
      t ∈ pairViableOuter names relations smap ps lst →
      t.2.2 = validRelationsBetween t.1 t.2.1 relations smap ps := by
    intro lst
    induction lst with
    | nil => intro h; simp [pairViableOuter] at h
    | cons subj rest ih =>
      intro h
      rw [pairViableOuter] at h
      rcases List.mem_append.mp h with h | h
      · exact pairViableInner_mem h
      · exact ih h
  exact hgen names ht

theorem pickPair_valid {names relations : List String} {smap : SpatialMap}
    {ps : PairState} {g : Rng} {a b rel : String} {g' : Rng}
    (h : _pickRelationPair names relations smap ps g = .ok ((a, b, rel), g')) :
    rel ∈ validRelationsBetween a b relations smap ps := by
  rw [_pickRelationPair] at h
  split at h
  next hpv => exact Except.noConfusion h
  next v vs hpv =>
    split at h
    · exact Except.noConfusion h
    next sj ob vl g₁ hch =>
      split at h
      · exact Except.noConfusion h
      next r₀ g₂ hch2 =>
        injection h with h
        rw [Prod.mk.injEq, Prod.mk.injEq, Prod.mk.injEq] at h
        obtain ⟨⟨h1, h2, h3⟩, -⟩ := h
        have hvm : vl = validRelationsBetween sj ob relations smap ps :=
          pairViable_mem (hpv ▸ chooseE_mem hch)
        have hrm := chooseE_mem hch2
        rw [← h1, ← h2, ← h3]
        rw [hvm] at hrm
        exact hrm

theorem buildPathLoop_dominates {names relations : List String} {smap : SpatialMap} :
    ∀ {steps : Nat} {current : String} {ps : PairState} {facts : List Fact}
      {ids : List String} {g : Rng} {facts' : List Fact} {ids' : List String}
      {ps' : PairState} {g' : Rng},
      Dominates ps facts →
      buildPathLoop names relations smap steps current ps facts ids g =
        .ok (facts', ids', ps', g') →
      Dominates ps' facts' := by
  intro steps
  induction steps with
  | zero =>
    intro current ps facts ids g facts' ids' ps' g' hd h
    rw [buildPathLoop] at h
    injection h with h
    simp only [Prod.mk.injEq] at h
    rw [← h.1, ← h.2.2.1]
    exact hd
  | succ k ih =>
    intro current ps facts ids g facts' ids' ps' g' hd h
    rw [buildPathLoop] at h
    split at h
    · exact Except.noConfusion h
    next nextName rel g₁ hpick =>
      exact ih (dominates_step hd (famCompat_of_valid (pickNext_valid hpick))) h

theorem buildPathLoop_mono {names relations : List String} {smap : SpatialMap} :
    ∀ {steps : Nat} {current : String} {ps : PairState} {facts : List Fact}
      {ids : List String} {g : Rng} {facts' : List Fact} {ids' : List String}
      {ps' : PairState} {g' : Rng} {k : String × String} {c : String},
      lookupA k ps = some c →
      buildPathLoop names relations smap steps current ps facts ids g =
        .ok (facts', ids', ps', g') →
      lookupA k ps' = some c := by
  intro steps
  induction steps with
  | zero =>
    intro current ps facts ids g facts' ids' ps' g' k c hk h
    rw [buildPathLoop] at h
    injection h with h
    simp only [Prod.mk.injEq] at h
    rw [← h.2.2.1]
    exact hk
  | succ n ih =>
    intro current ps facts ids g facts' ids' ps' g' k c hk h
    rw [buildPathLoop] at h
    split at h
    · exact Except.noConfusion h
    next nextName rel g₁ hpick =>
      exact ih (register_mono (famCompat_of_valid (pickNext_valid hpick)) hk) h

theorem extraLoop_dominates {names relations : List String} {smap : SpatialMap}
    (F : List Fact) :
    ∀ {n : Nat} {ps : PairState} {acc : List Fact} {g : Rng},
      Dominates ps (F ++ acc) →
      Dominates (extraLoop names relations smap n ps acc g).2.1
        (F ++ (extraLoop names relations smap n ps acc g).1) := by
  intro n
  induction n with
  | zero => intro ps acc g hd; rw [extraLoop]; exact hd
  | succ k ih =>
    intro ps acc g hd
    rw [extraLoop]
    split
    · exact hd
    next a b rel g₁ hpick =>
      have hstep := @dominates_step ps (F ++ acc) a rel b g₁ hd
        (famCompat_of_valid (pickPair_valid hpick))
      rw [List.append_assoc] at hstep
      exact ih hstep

theorem extraLoop_mono {names relations : List String} {smap : SpatialMap} :
    ∀ {n : Nat} {ps : PairState} {acc : List Fact} {g : Rng} {k : String × String} {c : String},
      lookupA k ps = some c →
      lookupA k (extraLoop names relations smap n ps acc g).2.1 = some c := by
  intro n
  induction n with
  | zero => intro ps acc g k c hk; rw [extraLoop]; exact hk
  | succ m ih =>
    intro ps acc g k c hk
    rw [extraLoop]
    split
    · exact hk
    next a b rel g₁ hpick =>
      exact ih (register_mono (famCompat_of_valid (pickPair_valid hpick)) hk)

theorem dedupeFacts_mem : ∀ {l : List Fact} {f : Fact}, f ∈ _dedupeFacts l → f ∈ l := by
  have hgen : ∀ (l : List Fact) (seen : List (String × String × String)) (out : List Fact)
      (f : Fact),
      f ∈ (l.foldl (fun (p : List (String × String × String) × List Fact) f =>
        if (f.subj, f.rel, f.obj) ∈ p.1 then p
        else (p.1 ++ [(f.subj, f.rel, f.obj)], p.2 ++ [f])) (seen, out)).2 →
      f ∈ out ∨ f ∈ l := by
    intro l
    induction l with
    | nil => intro seen out f h; exact Or.inl h
    | cons x rest ih =>
      intro seen out f h
      rw [List.foldl_cons] at h
      by_cases hx : (x.subj, x.rel, x.obj) ∈ seen
      · rw [if_pos hx] at h
        rcases ih seen out f h with h' | h'
        · exact Or.inl h'
        · exact Or.inr (List.mem_cons_of_mem _ h')
      · rw [if_neg hx] at h
        rcases ih _ _ f h with h' | h'
        · rcases List.mem_append.mp h' with h'' | h''
          · exact Or.inl h''
          · simp only [List.mem_singleton] at h''
            exact Or.inr (h'' ▸ List.mem_cons_self _ _)
        · exact Or.inr (List.mem_cons_of_mem _ h')
  intro l f h
  rw [_dedupeFacts] at h
  rcases hgen l [] [] f h with h' | h'
  · exact absurd h' (List.not_mem_nil f)
  · exact h'

theorem dominates_familyConsistent {ps : PairState} {facts : List Fact}
    (hd : Dominates ps facts) : FamilyConsistent facts := by
  intro f hf f' hf' hkey c c' hc hc'
  obtain ⟨-, hl⟩ := hd f hf c hc
  obtain ⟨-, hl'⟩ := hd f' hf' c' hc'
  rw [hkey] at hl
  rw [hl] at hl'
  exact Option.some_injective _ hl'

theorem familyConsistent_of_sub {facts facts' : List Fact}
    (hsub : ∀ f ∈ facts', f ∈ facts) (hc : FamilyConsistent facts) :
    FamilyConsistent facts' :=
  fun f hf f' hf' hkey c c' h1 h2 => hc f (hsub f hf) f' (hsub f' hf') hkey c c' h1 h2

/-- **C1.** (i) In every Puzzle returned by `generate`, no unordered entity
pair carries two facts whose relation labels map to different family-exclusive
categories.  (ii)/(iii) Once a family category is committed for a pair in the
tracker, it is never changed by the Path Builder loop or by the Extra-Fact
Sampler loop for the remainder of the generation run. -/
theorem generate_no_family_contradiction :
    (∀ (nPeople minGraphLen : Nat) (seed : Option Int)
       (seatingKind relationProfile : Option String) (difficulty : String)
       (dense : Bool) (g0 : Rng) (pz : Puzzle),
       generate nPeople minGraphLen seed seatingKind relationProfile difficulty
         dense g0 = .ok pz →
       FamilyConsistent pz.facts) ∧
    (∀ (names relations : List String) (smap : SpatialMap) (steps : Nat)
       (current : String) (ps : PairState) (facts facts' : List Fact)
       (ids ids' : List String) (ps' : PairState) (g g' : Rng) (k : String × String)
       (c : String),
       lookupA k ps = some c →
       buildPathLoop names relations smap steps current ps facts ids g =
         .ok (facts', ids', ps', g') →
       lookupA k ps' = some c) ∧
    (∀ (names relations : List String) (smap : SpatialMap) (n : Nat) (ps : PairState)
       (acc : List Fact) (g : Rng) (k : String × String) (c : String),
       lookupA k ps = some c →
       lookupA k (extraLoop names relations smap n ps acc g).2.1 = some c) := by
  refine ⟨?_, ?_, ?_⟩
  · intro nPeople minGraphLen seed seatingKind relationProfile difficulty dense g0 pz h
    obtain ⟨names, relations, smap, pathFacts, pathIds, ps₁, g₁, g₂, g₃, g₄, k, extraFacts,
      ps₂, hbp, hel, -, hfacts, -, -, -, -⟩ := generate_ok_inversion h
    rw [_buildPath] at hbp
    split at hbp
    next slack gA hrand =>
      split at hbp
      · exact Except.noConfusion hbp
      next start gB hch =>
        have hdom₁ : Dominates ps₁ pathFacts :=
          buildPathLoop_dominates (fun f hf => absurd hf (List.not_mem_nil f)) hbp
        have hdom₁' : Dominates ps₁ (pathFacts ++ ([] : List Fact)) := by
          rw [List.append_nil]; exact hdom₁
        have hdom₂ := @extraLoop_dominates names relations smap pathFacts k ps₁ [] g₃ hdom₁'
        rw [hel] at hdom₂
        rw [hfacts]
        exact familyConsistent_of_sub (fun f hf => dedupeFacts_mem hf)
          (dominates_familyConsistent hdom₂)
  · intro names relations smap steps current ps facts facts' ids ids' ps' g g' k c hk h
    exact buildPathLoop_mono hk h
  · intro names relations smap n ps acc g k c hk
    exact extraLoop_mono hk

def c1Pz : Puzzle :=
  (generate 2 1 (some 7) (some "linear") (some "social") "low" false (fun _ => 0)).toOption.getD
    default

/-- Witness for C1 at concrete inputs. -/
theorem generate_no_family_contradiction_witness :
    FamilyConsistent c1Pz.facts ∧
    lookupA ("Ann", "Bob") [(("Ann", "Bob"), "sibling")] = some "sibling" ∧
    lookupA ("Ann", "Bob") (extraLoop ["Ann", "Bob"] ["friend_of"] [] 1
      [(("Ann", "Bob"), "sibling")] [] (fun _ => 0)).2.1 = some "sibling" :=
  ⟨generate_no_family_contradiction.1 2 1 (some 7) (some "linear") (some "social") "low"
      false (fun _ => 0) c1Pz rfl,
    generate_no_family_contradiction.2.1 ["Ann", "Bob"] ["friend_of"] [] 0 "Ann"
      [(("Ann", "Bob"), "sibling")] [] [] [] [] [(("Ann", "Bob"), "sibling")]
      (fun _ => 0) (fun _ => 0) ("Ann", "Bob") "sibling" rfl rfl,
    generate_no_family_contradiction.2.2 ["Ann", "Bob"] ["friend_of"] [] 1
      [(("Ann", "Bob"), "sibling")] [] (fun _ => 0) ("Ann", "Bob") "sibling" rfl⟩

/-! ## C5: mirrored inverse facts -/

/-- Every fact with a defined inverse has its mirrored fact in the list. -/
def TripleMirror (facts : List Fact) : Prop :=
  ∀ f ∈ facts, ∀ r', lookupA f.rel INVERSE = some r' →
    ∃ f' ∈ facts, f'.subj = f.obj ∧ f'.rel = r' ∧ f'.obj = f.subj

theorem INVERSE_invol : ∀ p ∈ INVERSE, lookupA p.2 INVERSE = some p.1 := by decide

theorem addBidirectional_mirror {s r o : String} {g : Rng} :
    ∀ f ∈ (_addBidirectionalFacts s r o g).1, ∀ r', lookupA f.rel INVERSE = some r' →
      ∃ f' ∈ (_addBidirectionalFacts s r o g).1,
        f'.subj = f.obj ∧ f'.rel = r' ∧ f'.obj = f.subj := by
  intro f hf r' hr'
  cases hinv : lookupA r INVERSE with
  | none =>
    have hf' : f ∈ [(_emitFact s r o g).1] := by
      rw [_addBidirectionalFacts, hinv] at hf
      exact hf
    rw [List.mem_singleton] at hf'
    rw [hf'] at hr'
    rw [show ((_emitFact s r o g).1).rel = r from rfl, hinv] at hr'
    exact Option.noConfusion hr'
  | some inv =>
    have hf' : f ∈ [(_emitFact s r o g).1, (_emitFact o inv s (_emitFact s r o g).2).1] := by
      rw [_addBidirectionalFacts, hinv] at hf
      exact hf
    have hmem1 : (_emitFact s r o g).1 ∈ (_addBidirectionalFacts s r o g).1 := by
      rw [_addBidirectionalFacts, hinv]
      exact List.mem_cons_self _ _
    have hmem2 : (_emitFact o inv s (_emitFact s r o g).2).1 ∈
        (_addBidirectionalFacts s r o g).1 := by
      rw [_addBidirectionalFacts, hinv]
      exact List.mem_cons_of_mem _ (List.mem_singleton.mpr rfl)
    rcases List.mem_cons.mp hf' with hfe | hfe
    · rw [hfe] at hr' ⊢
      rw [show ((_emitFact s r o g).1).rel = r from rfl, hinv] at hr'
      injection hr' with hr'
      exact ⟨(_emitFact o inv s (_emitFact s r o g).2).1, hmem2, rfl, hr' ▸ rfl, rfl⟩
    · rw [List.mem_singleton] at hfe
      rw [hfe] at hr' ⊢
      rw [show ((_emitFact o inv s (_emitFact s r o g).2).1).rel = inv from rfl] at hr'
      rw [INVERSE_invol (r, inv) (lookupA_mem hinv)] at hr'
      injection hr' with hr'
      exact ⟨(_emitFact s r o g).1, hmem1, rfl, hr' ▸ rfl, rfl⟩

theorem tripleMirror_append {l₁ l₂ : List Fact}
    (h₁ : TripleMirror l₁) (h₂ : TripleMirror l₂) : TripleMirror (l₁ ++ l₂) := by
  intro f hf r' hr'
  rcases List.mem_append.mp hf with hf | hf
  · obtain ⟨f', hf', hp⟩ := h₁ f hf r' hr'
    exact ⟨f', List.mem_append.mpr (Or.inl hf'), hp⟩
  · obtain ⟨f', hf', hp⟩ := h₂ f hf r' hr'
    exact ⟨f', List.mem_append.mpr (Or.inr hf'), hp⟩

theorem buildPathLoop_mirror {names relations : List String} {smap : SpatialMap} :
    ∀ {steps : Nat} {current : String} {ps : PairState} {facts : List Fact}
      {ids : List String} {g : Rng} {facts' : List Fact} {ids' : List String}
      {ps' : PairState} {g' : Rng},
      TripleMirror facts →
      buildPathLoop names relations smap steps current ps facts ids g =
        .ok (facts', ids', ps', g') →
      TripleMirror facts' := by
  intro steps
  induction steps with
  | zero =>
    intro current ps facts ids g facts' ids' ps' g' hm h
    rw [buildPathLoop] at h
    injection h with h
    simp only [Prod.mk.injEq] at h
    rw [← h.1]
    exact hm
  | succ k ih =>
    intro current ps facts ids g facts' ids' ps' g' hm h
    rw [buildPathLoop] at h
    split at h
    · exact Except.noConfusion h
    next nextName rel g₁ hpick =>
      exact ih (tripleMirror_append hm addBidirectional_mirror) h

theorem extraLoop_mirror {names relations : List String} {smap : SpatialMap} :
    ∀ {n : Nat} {ps : PairState} {acc : List Fact} {g : Rng},
      TripleMirror acc →
      TripleMirror (extraLoop names relations smap n ps acc g).1 := by
  intro n
  induction n with
  | zero => intro ps acc g hm; rw [extraLoop]; exact hm
  | succ k ih =>
    intro ps acc g hm
    rw [extraLoop]
    split
    · exact hm
    next a b rel g₁ hpick =>
      exact ih (tripleMirror_append hm addBidirectional_mirror)

theorem dedupe_out_mono :
    ∀ (l : List Fact) (seen : List (String × String × String)) (out : List Fact)
      (f : Fact), f ∈ out →
      f ∈ (l.foldl (fun (p : List (String × String × String) × List Fact) f =>
        if (f.subj, f.rel, f.obj) ∈ p.1 then p
        else (p.1 ++ [(f.subj, f.rel, f.obj)], p.2 ++ [f])) (seen, out)).2 := by
  intro l
  induction l with
  | nil => intro seen out f h; exact h
  | cons x rest ih =>
    intro seen out f h
    rw [List.foldl_cons]
    by_cases hx : (x.subj, x.rel, x.obj) ∈ seen
    · rw [if_pos hx]
      exact ih seen out f h
    · rw [if_neg hx]
      exact ih _ _ f (List.mem_append.mpr (Or.inl h))

theorem dedupe_triple_complete :
    ∀ (l : List Fact) (seen : List (String × String × String)) (out : List Fact),
      (∀ k ∈ seen, ∃ f' ∈ out, (f'.subj, f'.rel, f'.obj) = k) →
      ∀ f ∈ l,
        ∃ f' ∈ (l.foldl (fun (p : List (String × String × String) × List Fact) f =>
          if (f.subj, f.rel, f.obj) ∈ p.1 then p
          else (p.1 ++ [(f.subj, f.rel, f.obj)], p.2 ++ [f])) (seen, out)).2,
          f'.subj = f.subj ∧ f'.rel = f.rel ∧ f'.obj = f.obj := by
  intro l
  induction l with
  | nil => intro seen out _hinv f hf; simp at hf
  | cons x rest ih =>
    intro seen out hinv f hf
    rw [List.foldl_cons]
    by_cases hx : (x.subj, x.rel, x.obj) ∈ seen
    · rw [if_pos hx]
      rcases List.mem_cons.mp hf with rfl | hf
      · obtain ⟨f', hf', hk⟩ := hinv _ hx
        rw [Prod.mk.injEq, Prod.mk.injEq] at hk
        exact ⟨f', dedupe_out_mono rest seen out f' hf', hk.1, hk.2.1, hk.2.2⟩
      · exact ih seen out hinv f hf
    · rw [if_neg hx]
      have hinv' : ∀ k ∈ seen ++ [(x.subj, x.rel, x.obj)],
          ∃ f' ∈ out ++ [x], (f'.subj, f'.rel, f'.obj) = k := by
        intro k hk
        rcases List.mem_append.mp hk with hk | hk
        · obtain ⟨f', hf', he⟩ := hinv k hk
          exact ⟨f', List.mem_append.mpr (Or.inl hf'), he⟩
        · simp only [List.mem_singleton] at hk
          exact ⟨x, List.mem_append.mpr (Or.inr (List.mem_singleton.mpr rfl)), hk.symm⟩
      rcases List.mem_cons.mp hf with rfl | hf
      · exact ⟨f, dedupe_out_mono rest _ _ f (List.mem_append.mpr
          (Or.inr (List.mem_singleton.mpr rfl))), rfl, rfl, rfl⟩
      · exact ih _ _ hinv' f hf

theorem dedupeFacts_triple_complete {l : List Fact} {f : Fact} (hf : f ∈ l) :
    ∃ f' ∈ _dedupeFacts l, f'.subj = f.subj ∧ f'.rel = f.rel ∧ f'.obj = f.obj := by
  rw [_dedupeFacts]
  exact dedupe_triple_complete l [] [] (by intro k hk; simp at hk) f hf

/-- **C5.** In every generated Puzzle, every non-self fact `(s, r, o)` whose
relation has a defined inverse has its mirrored fact `(o, inverse(r), s)`
present in the deduplicated fact list.  (Deduplication never removes the last
fact carrying a triple, so the mirror survives; the claim's escape clause for
collapsed symmetric duplicates is never needed for non-self facts.) -/
theorem generate_mirrored_facts (nPeople minGraphLen : Nat) (seed : Option Int)
    (seatingKind relationProfile : Option String) (difficulty : String)
    (dense : Bool) (g0 : Rng) (pz : Puzzle)
    (h : generate nPeople minGraphLen seed seatingKind relationProfile difficulty
      dense g0 = .ok pz) :
    ∀ f ∈ pz.facts, f.subj ≠ f.obj → ∀ r', lookupA f.rel INVERSE = some r' →
      ∃ f' ∈ pz.facts, f'.subj = f.obj ∧ f'.rel = r' ∧ f'.obj = f.subj := by
  obtain ⟨names, relations, smap, pathFacts, pathIds, ps₁, g₁, g₂, g₃, g₄, k, extraFacts,
    ps₂, hbp, hel, -, hfacts, -, -, -, -⟩ := generate_ok_inversion h
  have hmirror : TripleMirror (pathFacts ++ extraFacts) := by
    apply tripleMirror_append
    · rw [_buildPath] at hbp
      split at hbp
      next slack gA hrand =>
        split at hbp
        · exact Except.noConfusion hbp
        next start gB hch =>
          exact buildPathLoop_mirror (by intro f hf; simp at hf) hbp
    · have := @extraLoop_mirror names relations smap k ps₁ [] g₃ (by intro f hf; simp at hf)
      rw [hel] at this
      exact this
  intro f hf _hso r' hr'
  rw [hfacts] at hf ⊢
  obtain ⟨f', hf', h1, h2, h3⟩ := hmirror f (dedupeFacts_mem hf) r' hr'
  obtain ⟨f'', hf'', e1, e2, e3⟩ := dedupeFacts_triple_complete hf'
  exact ⟨f'', hf'', by rw [e1, h1], by rw [e2, h2], by rw [e3, h3]⟩

def c5Pz : Puzzle :=
  (generate 2 1 (some 11) (some "linear") (some "social") "low" false (fun _ => 0)).toOption.getD
    default

def c5Fact : Fact := c5Pz.facts.headD default

def c5Inv : String := (lookupA c5Fact.rel INVERSE).getD ""

/-- Witness for C5 at a concrete generated puzzle and fact. -/
theorem generate_mirrored_facts_witness :
    ∃ f' ∈ c5Pz.facts, f'.subj = c5Fact.obj ∧ f'.rel = c5Inv ∧ f'.obj = c5Fact.subj :=
  generate_mirrored_facts 2 1 (some 11) (some "linear") (some "social") "low" false
    (fun _ => 0) c5Pz rfl c5Fact (by decide) (by decide) c5Inv rfl

/-! ## C8: infeasible spatial request -/

theorem sampleL_length : ∀ (k : Nat) (pop : List String) (g : Rng),
    (sampleL pop k g).1.length = min k pop.length := by
  intro k
  induction k with
  | zero => intro pop g; simp [sampleL]
  | succ n ih =>
    intro pop g
    cases pop with
    | nil => simp [sampleL]
    | cons x xs =>
      simp only [sampleL, rngNext, List.length_cons]
      rw [ih]
      have hlt : g 0 % (xs.length + 1) < (x :: xs).length := by
        simp only [List.length_cons]
        exact Nat.mod_lt _ (Nat.succ_pos _)
      have := List.length_eraseIdx_add_one hlt
      simp only [List.length_cons] at this
      omega

theorem makeNames_length (n : Nat) (g : Rng) : (_makeNames n false g).1.length = n := by
  rw [_makeNames]
  simp only [Bool.false_eq_true, if_false, List.length_append, List.length_map,
    List.length_range]
  rw [sampleL_length]
  have : FIRST_NAMES.length = 30 := by decide
  rw [this]
  omega

theorem pyLower_of_valid_kind {kind : String} (h : kind ∈ VALID_SEATING_KINDS) :
    pyLower kind = kind := by
  rcases (by simpa [VALID_SEATING_KINDS] using h : kind = "linear" ∨ kind = "circular")
    with rfl | rfl <;> rfl

theorem pyLower_of_valid_difficulty {d : String} (h : d ∈ VALID_DIFFICULTY_LEVELS) :
    pyLower d = d := by
  rcases (by simpa [VALID_DIFFICULTY_LEVELS] using h :
    d = "low" ∨ d = "medium" ∨ d = "high") with rfl | rfl | rfl <;> rfl

theorem valid_difficulty_ne_empty {d : String} (h : d ∈ VALID_DIFFICULTY_LEVELS) :
    ¬ d = "" := by
  rcases (by simpa [VALID_DIFFICULTY_LEVELS] using h :
    d = "low" ∨ d = "medium" ∨ d = "high") with rfl | rfl | rfl <;> decide

/-- **C8.** Whenever the resolved relation pool is non-empty and consists
exclusively of spatial labels while fewer than two entities exist, `generate`
fails with the infeasible-spatial-request error. -/
theorem generate_infeasible_spatial (nPeople minGraphLen : Nat) (seed : Option Int)
    (kind : String) (relationProfile : Option String) (difficulty : String)
    (dense : Bool) (g0 : Rng) (relations : List String)
    (hkind : kind ∈ VALID_SEATING_KINDS)
    (hdiff : difficulty ∈ VALID_DIFFICULTY_LEVELS)
    (hpool : _relationPool kind relationProfile difficulty = .ok relations)
    (hne : relations ≠ [])
    (hsp : ∀ r ∈ relations, r ∈ SPATIAL_RELATIONS)
    (hn : nPeople < 2) :
    generate nPeople minGraphLen seed (some kind) relationProfile difficulty dense g0 =
      .error "Spatial relations require at least two people." := by
  have hkl := pyLower_of_valid_kind hkind
  have hdl := pyLower_of_valid_difficulty hdiff
  have hdne := valid_difficulty_ne_empty hdiff
  simp only [generate]
  simp [hkl, hdl, hdne, hpool, makeNames_length, hkind, hdiff, hne, hsp, hn]
  intro x hx hns
  exact absurd (hsp x hx) hns

/-! ## C9: canonical graph description -/

/-- Witness for C8: the claim's concrete example, `relation_profile="spatial"`
with `people_count=1`. -/
theorem generate_infeasible_spatial_witness :
    generate 1 0 none (some "linear") (some "spatial") "low" false (fun _ => 0) =
      .error "Spatial relations require at least two people." :=
  generate_infeasible_spatial 1 0 none "linear" (some "spatial") "low" false (fun _ => 0)
    ["left_of", "right_of", "next_to"] (by decide) (by decide) rfl (by decide) (by decide)
    (by decide)

theorem charsLt_irrefl : ∀ (cs : List Char), charsLt cs cs = false := by
  intro cs
  induction cs with
  | nil => rfl
  | cons c rest ih =>
    rw [charsLt, if_neg (Nat.lt_irrefl _), if_neg (Nat.lt_irrefl _)]
    exact ih

theorem charsLt_trans : ∀ {cs ds es : List Char},
    charsLt cs ds = true → charsLt ds es = true → charsLt cs es = true := by
  intro cs
  induction cs with
  | nil =>
    intro ds es h1 h2
    cases ds with
    | nil => simp [charsLt] at h1
    | cons d ds' =>
      cases es with
      | nil => simp [charsLt] at h2
      | cons e es' => rfl
  | cons c cs' ih =>
    intro ds es h1 h2
    cases ds with
    | nil => simp [charsLt] at h1
    | cons d ds' =>
      cases es with
      | nil => simp [charsLt] at h2
      | cons e es' =>
        rw [charsLt] at h1 h2 ⊢
        by_cases hcd : c.toNat < d.toNat
        · by_cases hde : d.toNat < e.toNat
          · rw [if_pos (Nat.lt_trans hcd hde)]
          · rw [if_neg hde] at h2
            by_cases hed : e.toNat < d.toNat
            · rw [if_pos hed] at h2
              exact absurd h2 (by simp)
            · have : d.toNat = e.toNat := Nat.le_antisymm (Nat.le_of_not_lt hed) (Nat.le_of_not_lt hde)
              rw [if_pos (this ▸ hcd)]
        · rw [if_neg hcd] at h1
          by_cases hdc : d.toNat < c.toNat
          · rw [if_pos hdc] at h1
            exact absurd h1 (by simp)
          · rw [if_neg hdc] at h1
            have hcd' : c.toNat = d.toNat := Nat.le_antisymm (Nat.le_of_not_lt hdc) (Nat.le_of_not_lt hcd)
            by_cases hde : d.toNat < e.toNat
            · rw [if_pos (hcd' ▸ hde)]
            · rw [if_neg hde] at h2
              by_cases hed : e.toNat < d.toNat
              · rw [if_pos hed] at h2
                exact absurd h2 (by simp)
              · rw [if_neg hed] at h2
                rw [if_neg (hcd' ▸ hde), if_neg (hcd' ▸ hed)]
                exact ih h1 h2

theorem pyLt_irrefl (a : String) : pyLt a a = false := charsLt_irrefl a.data

theorem pyLt_trans {a b c : String} (h1 : pyLt a b = true) (h2 : pyLt b c = true) :
    pyLt a c = true := charsLt_trans h1 h2

theorem pyLt_trichotomy (a b : String) : pyLt a b = true ∨ a = b ∨ pyLt b a = true := by
  by_cases h1 : pyLt a b = true
  · exact Or.inl h1
  · by_cases h2 : pyLt b a = true
    · exact Or.inr (Or.inr h2)
    · exact Or.inr (Or.inl (pyLt_conn (Bool.eq_false_iff.mpr h1) (Bool.eq_false_iff.mpr h2)))

theorem tripleLt_irrefl (a : String × String × String) : ¬ tripleLt a a := by
  rw [tripleLt]
  rintro (h | ⟨-, h | ⟨-, h⟩⟩) <;> rw [pyLt_irrefl] at h <;> exact Bool.false_ne_true h

theorem tripleLt_trans {a b c : String × String × String}
    (h1 : tripleLt a b) (h2 : tripleLt b c) : tripleLt a c := by
  rw [tripleLt] at h1 h2 ⊢
  rcases h1 with h1 | ⟨e1, h1⟩
  · rcases h2 with h2 | ⟨e2, h2⟩
    · exact Or.inl (pyLt_trans h1 h2)
    · exact Or.inl (e2 ▸ h1)
  · rcases h2 with h2 | ⟨e2, h2⟩
    · exact Or.inl (e1 ▸ h2)
    · refine Or.inr ⟨e1.trans e2, ?_⟩
      rcases h1 with h1 | ⟨f1, h1⟩
      · rcases h2 with h2 | ⟨f2, h2⟩
        · exact Or.inl (pyLt_trans h1 h2)
        · exact Or.inl (f2 ▸ h1)
      · rcases h2 with h2 | ⟨f2, h2⟩
        · exact Or.inl (f1 ▸ h2)
        · exact Or.inr ⟨f1.trans f2, pyLt_trans h1 h2⟩

theorem tripleLt_asymm {a b : String × String × String}
    (h1 : tripleLt a b) (h2 : tripleLt b a) : False :=
  tripleLt_irrefl a (tripleLt_trans h1 h2)

theorem tripleLt_trichotomy (a b : String × String × String) :
    tripleLt a b ∨ a = b ∨ tripleLt b a := by
  rcases pyLt_trichotomy a.1 b.1 with h1 | h1 | h1
  · exact Or.inl (Or.inl h1)
  · rcases pyLt_trichotomy a.2.1 b.2.1 with h2 | h2 | h2
    · exact Or.inl (Or.inr ⟨h1, Or.inl h2⟩)
    · rcases pyLt_trichotomy a.2.2 b.2.2 with h3 | h3 | h3
      · exact Or.inl (Or.inr ⟨h1, Or.inr ⟨h2, h3⟩⟩)
      · refine Or.inr (Or.inl ?_)
        obtain ⟨a1, a2, a3⟩ := a
        obtain ⟨b1, b2, b3⟩ := b
        simp only at h1 h2 h3
        rw [h1, h2, h3]
      · exact Or.inr (Or.inr (Or.inr ⟨h1.symm, Or.inr ⟨h2.symm, h3⟩⟩))
    · exact Or.inr (Or.inr (Or.inr ⟨h1.symm, Or.inl h2⟩))
  · exact Or.inr (Or.inr (Or.inl h1))

instance : IsTotal ((String × String × String) × String) dotLe :=
  ⟨fun a b => by
    rw [dotLe, dotLe]
    by_cases h : tripleLt b.1 a.1
    · exact Or.inr (fun h' => tripleLt_asymm h h')
    · exact Or.inl h⟩

instance : IsTrans ((String × String × String) × String) dotLe :=
  ⟨fun a b c hab hbc => by
    rw [dotLe] at hab hbc ⊢
    intro hca
    rcases tripleLt_trichotomy a.1 b.1 with h | h | h
    · exact hbc (tripleLt_trans hca h)
    · exact hbc (h ▸ hca)
    · exact hab h⟩

theorem mem_insertA {κ α : Type} [DecidableEq κ] {k : κ} {v : α} :
    ∀ {l : List (κ × α)} {p : κ × α}, p ∈ insertA k v l → p = (k, v) ∨ p ∈ l := by
  intro l
  induction l with
  | nil =>
    intro p h
    rw [insertA] at h
    exact Or.inl (List.mem_singleton.mp h)
  | cons q rest ih =>
    intro p h
    rw [insertA] at h
    split at h
    · rcases List.mem_cons.mp h with rfl | h
      · exact Or.inl rfl
      · exact Or.inr (List.mem_cons_of_mem _ h)
    · rcases List.mem_cons.mp h with rfl | h
      · exact Or.inr (List.mem_cons_self _ _)
      · rcases ih h with h' | h'
        · exact Or.inl h'
        · exact Or.inr (List.mem_cons_of_mem _ h')

theorem keys_insertA {κ α : Type} [DecidableEq κ] {k : κ} {v : α} :
    ∀ (l : List (κ × α)),
      (insertA k v l).map Prod.fst =
        if k ∈ l.map Prod.fst then l.map Prod.fst else l.map Prod.fst ++ [k] := by
  intro l
  induction l with
  | nil => simp [insertA]
  | cons q rest ih =>
    rw [insertA]
    by_cases hk : k = q.1
    · rw [if_pos hk]
      simp only [List.map_cons]
      rw [if_pos (by rw [hk]; exact List.mem_cons_self _ _)]
      rw [hk]
    · rw [if_neg hk]
      simp only [List.map_cons]
      rw [ih]
      by_cases hm : k ∈ rest.map Prod.fst
      · rw [if_pos hm, if_pos (List.mem_cons_of_mem _ hm)]
      · rw [if_neg hm]
        rw [if_neg (by
          intro hc
          rcases List.mem_cons.mp hc with hc | hc
          · exact hk hc
          · exact hm hc)]
        rfl

theorem nodup_keys_insertA {κ α : Type} [DecidableEq κ] {k : κ} {v : α}
    {l : List (κ × α)} (h : (l.map Prod.fst).Nodup) :
    ((insertA k v l).map Prod.fst).Nodup := by
  rw [keys_insertA]
  split
  · exact h
  · rename_i hk
    simp only [List.nodup_append, List.nodup_singleton]
    exact ⟨h, trivial, by
      intro a ha
      simp only [List.mem_singleton]
      intro hc
      exact hk (hc ▸ ha)⟩

theorem keyMem_insertA {κ α : Type} [DecidableEq κ] {k : κ} {v : α}
    (l : List (κ × α)) : k ∈ (insertA k v l).map Prod.fst := by
  rw [keys_insertA]
  split
  · assumption
  · exact List.mem_append.mpr (Or.inr (List.mem_singleton.mpr rfl))

theorem keyMem_insertA_mono {κ α : Type} [DecidableEq κ] {k k' : κ} {v : α}
    {l : List (κ × α)} (h : k' ∈ l.map Prod.fst) : k' ∈ (insertA k v l).map Prod.fst := by
  rw [keys_insertA]
  split
  · exact h
  · exact List.mem_append.mpr (Or.inl h)

theorem graphDedup_nodup_keys (facts : List Fact) :
    ((graphDedup facts).map Prod.fst).Nodup := by
  rw [graphDedup]
  have hgen : ∀ (l : List Fact) (acc : List ((String × String × String) × String)),
      (acc.map Prod.fst).Nodup →
      ((l.foldl (fun d f => insertA (canonKey f) (renderTriple (canonKey f)) d) acc).map
        Prod.fst).Nodup := by
    intro l
    induction l with
    | nil => intro acc h; exact h
    | cons f rest ih =>
      intro acc h
      rw [List.foldl_cons]
      exact ih _ (nodup_keys_insertA h)
  exact hgen facts [] (by simp)

theorem graphDedup_mem {facts : List Fact} {p : (String × String × String) × String}
    (hp : p ∈ graphDedup facts) :
    p.2 = renderTriple p.1 ∧ ∃ f ∈ facts, p.1 = canonKey f := by
  rw [graphDedup] at hp
  have hgen : ∀ (l : List Fact) (acc : List ((String × String × String) × String)),
      p ∈ l.foldl (fun d f => insertA (canonKey f) (renderTriple (canonKey f)) d) acc →
      p ∈ acc ∨ ∃ f ∈ l, p = (canonKey f, renderTriple (canonKey f)) := by
    intro l
    induction l with
    | nil => intro acc h; exact Or.inl h
    | cons f rest ih =>
      intro acc h
      rw [List.foldl_cons] at h
      rcases ih _ h with h' | ⟨f', hf', he⟩
      · rcases mem_insertA h' with h'' | h''
        · exact Or.inr ⟨f, List.mem_cons_self _ _, h''⟩
        · exact Or.inl h''
      · exact Or.inr ⟨f', List.mem_cons_of_mem _ hf', he⟩
  rcases hgen facts [] hp with h | ⟨f, hf, he⟩
  · exact absurd h (List.not_mem_nil p)
  · rw [he]
    exact ⟨rfl, f, hf, rfl⟩

theorem graphDedup_complete {facts : List Fact} {f : Fact} (hf : f ∈ facts) :
    canonKey f ∈ (graphDedup facts).map Prod.fst := by
  rw [graphDedup]
  have hmono : ∀ (l : List Fact) (acc : List ((String × String × String) × String))
      (k : String × String × String), k ∈ acc.map Prod.fst →
      k ∈ (l.foldl (fun d f => insertA (canonKey f) (renderTriple (canonKey f)) d) acc).map
        Prod.fst := by
    intro l
    induction l with
    | nil => intro acc k h; exact h
    | cons x rest ih =>
      intro acc k h
      rw [List.foldl_cons]
      exact ih _ k (keyMem_insertA_mono h)
  have hgen : ∀ (l : List Fact) (acc : List ((String × String × String) × String)),
      f ∈ l →
      canonKey f ∈ (l.foldl (fun d f => insertA (canonKey f) (renderTriple (canonKey f)) d)
        acc).map Prod.fst := by
    intro l
    induction l with
    | nil => intro acc h; simp at h
    | cons x rest ih =>
      intro acc h
      rw [List.foldl_cons]
      rcases List.mem_cons.mp h with rfl | h
      · exact hmono rest _ _ (keyMem_insertA acc)
      · exact ih _ h
  exact hgen facts [] hf

theorem sortedDot_perm (facts : List Fact) : List.Perm (sortedDot facts) (graphDedup facts) :=
  List.perm_insertionSort dotLe _

theorem sortedDot_pairwise_lt (facts : List Fact) :
    List.Pairwise (fun p q => tripleLt p.1 q.1) (sortedDot facts) := by
  have hs : List.Sorted dotLe (sortedDot facts) := List.sorted_insertionSort dotLe _
  have hnd : ((sortedDot facts).map Prod.fst).Nodup :=
    (((sortedDot_perm facts).map Prod.fst).nodup_iff).mpr (graphDedup_nodup_keys facts)
  have hne : List.Pairwise (fun p q : (String × String × String) × String => p.1 ≠ q.1)
      (sortedDot facts) := List.pairwise_map.mp hnd
  refine (hs.and hne).imp ?_
  intro a b hab
  rcases tripleLt_trichotomy a.1 b.1 with h | h | h
  · exact h
  · exact absurd h hab.2
  · exact absurd h hab.1

theorem canonKey_rel_component (f : Fact) : (canonKey f).2.1 = canonRel f.rel := by
  rw [canonKey]
  split <;> rfl

theorem canonKey_symmetric_ordered (f : Fact)
    (hsym : lookupA (canonKey f).2.1 INVERSE = some (canonKey f).2.1) :
    pyLt (canonKey f).2.2 (canonKey f).1 = false := by
  rw [canonKey_rel_component] at hsym
  rw [canonKey]
  split
  · rename_i hcond
    exact pyLt_asymm hcond.2
  · rename_i hcond
    by_cases hlt : pyLt (canonPairBase f).2 (canonPairBase f).1 = true
    · exact absurd ⟨hsym, hlt⟩ hcond
    · exact Bool.eq_false_iff.mpr hlt

/-- **C9.** For every generated Puzzle: the canonical graph description is the
sorted keyed rendering of the deduplicated facts; its entries are strictly
increasing in the canonicalized (subject, relation, object) key (hence
lexicographically sorted with no duplicate canonicalized triple); every line
renders its key; every key comes from canonicalizing a fact and every fact's
canonicalized key appears; relations with a canonical direction are rendered
as the canonical label; and symmetric relations are emitted with the entity
pair in lexicographic order (subject not greater than object), so only one
direction appears. -/
theorem generate_dot_canonical (nPeople minGraphLen : Nat) (seed : Option Int)
    (seatingKind relationProfile : Option String) (difficulty : String)
    (dense : Bool) (g0 : Rng) (pz : Puzzle)
    (h : generate nPeople minGraphLen seed seatingKind relationProfile difficulty
      dense g0 = .ok pz) :
    pz.dot = String.intercalate "\n" ((sortedDot pz.facts).map (·.2)) ∧
    List.Pairwise (fun p q => tripleLt p.1 q.1) (sortedDot pz.facts) ∧
    ((sortedDot pz.facts).map Prod.fst).Nodup ∧
    (∀ p ∈ sortedDot pz.facts, p.2 = renderTriple p.1 ∧ ∃ f ∈ pz.facts, p.1 = canonKey f) ∧
    (∀ f ∈ pz.facts, canonKey f ∈ (sortedDot pz.facts).map Prod.fst) ∧
    (∀ f ∈ pz.facts, ∀ cr : String, ∀ sw : Bool,
      lookupA f.rel CANONICAL_RELATIONS = some (cr, sw) → (canonKey f).2.1 = cr) ∧
    (∀ f ∈ pz.facts, lookupA (canonKey f).2.1 INVERSE = some (canonKey f).2.1 →
      pyLt (canonKey f).2.2 (canonKey f).1 = false) := by
  obtain ⟨names, relations, smap, pathFacts, pathIds, ps₁, g₁, g₂, g₃, g₄, k, extraFacts,
    ps₂, -, -, -, -, -, hdot, -, -⟩ := generate_ok_inversion h
  refine ⟨by rw [hdot]; rfl, sortedDot_pairwise_lt pz.facts,
    (((sortedDot_perm pz.facts).map Prod.fst).nodup_iff).mpr (graphDedup_nodup_keys pz.facts),
    ?_, ?_, ?_, ?_⟩
  · intro p hp
    exact graphDedup_mem ((sortedDot_perm pz.facts).mem_iff.mp hp)
  · intro f hf
    have := graphDedup_complete hf
    exact (((sortedDot_perm pz.facts).map Prod.fst).mem_iff).mpr this
  · intro f _hf cr sw hcan
    rw [canonKey_rel_component, canonRel, hcan]
    rfl
  · intro f _hf hsym
    exact canonKey_symmetric_ordered f hsym

def c9Pz : Puzzle :=
  (generate 3 2 (some 5) (some "linear") (some "social") "low" false (fun _ => 0)).toOption.getD
    default

/-- Witness for C9 at a concrete generated puzzle. -/
theorem generate_dot_canonical_witness :
    c9Pz.dot = String.intercalate "\n" ((sortedDot c9Pz.facts).map (·.2)) ∧
    List.Pairwise (fun p q => tripleLt p.1 q.1) (sortedDot c9Pz.facts) :=
  ⟨(generate_dot_canonical 3 2 (some 5) (some "linear") (some "social") "low" false
      (fun _ => 0) c9Pz rfl).1,
    (generate_dot_canonical 3 2 (some 5) (some "linear") (some "social") "low" false
      (fun _ => 0) c9Pz rfl).2.1⟩

/-! ## C10: solution summary vs. solution path -/

theorem buildSummary_mem {idMap : List (String × Fact)} :
    ∀ {ids : List String} {line : String}, line ∈ buildSummary idMap ids →
      ∃ i ∈ ids, ∃ f : Fact, lookupA i idMap = some f ∧
        line = f.subj ++ ":" ++ f.rel ++ " -> " ++ f.obj := by
  intro ids
  induction ids with
  | nil => intro line h; simp [buildSummary] at h
  | cons i rest ih =>
    intro line h
    rw [buildSummary] at h
    split at h
    · obtain ⟨j, hj, f, hf, he⟩ := ih h
      exact ⟨j, List.mem_cons_of_mem _ hj, f, hf, he⟩
    next f hf =>
      rcases List.mem_cons.mp h with rfl | h
      · exact ⟨i, List.mem_cons_self _ _, f, hf, rfl⟩
      · obtain ⟨j, hj, f', hf', he⟩ := ih h
        exact ⟨j, List.mem_cons_of_mem _ hj, f', hf', he⟩

theorem buildSummary_length (idMap : List (String × Fact)) :
    ∀ ids : List String, (buildSummary idMap ids).length ≤ ids.length := by
  intro ids
  induction ids with
  | nil => simp [buildSummary]
  | cons i rest ih =>
    rw [buildSummary]
    split
    · exact Nat.le_succ_of_le ih
    · simp only [List.length_cons]
      exact Nat.succ_le_succ ih

theorem mkIdToFact_mem {facts : List Fact} :
    ∀ {p : String × Fact}, p ∈ mkIdToFact facts → p.2 ∈ facts ∧ p.1 = p.2.id := by
  have hgen : ∀ (l : List Fact) (acc : List (String × Fact)) (p : String × Fact),
      p ∈ l.foldl (fun m f => insertA f.id f m) acc →
      p ∈ acc ∨ (p.2 ∈ l ∧ p.1 = p.2.id) := by
    intro l
    induction l with
    | nil => intro acc p h; exact Or.inl h
    | cons f rest ih =>
      intro acc p h
      rw [List.foldl_cons] at h
      rcases ih _ p h with h' | ⟨h1, h2⟩
      · rcases mem_insertA h' with h'' | h''
        · right
          rw [h'']
          exact ⟨List.mem_cons_self _ _, rfl⟩
        · exact Or.inl h''
      · exact Or.inr ⟨List.mem_cons_of_mem _ h1, h2⟩
  intro p h
  rw [mkIdToFact] at h
  rcases hgen facts [] p h with h' | h'
  · exact absurd h' (List.not_mem_nil p)
  · exact h'

def c10Pz : Puzzle :=
  (generate 2 0 none (some "linear") (some "social") "low" false
    (fun n => 4 * n + 4)).toOption.getD default

/-- **C10.** In every generated Puzzle the solution summary is exactly the
rendering of the path IDs that still resolve to a fact in the deduplicated
fact list: every summary line corresponds to a fact present in the fact list
whose ID is in the solution path, no line is emitted for a path ID without a
matching fact, and the summary can therefore be strictly shorter than the
solution path (witnessed by a concrete run in which deduplication drops a
repeated path triple). -/
theorem generate_summary_correspondence :
    (∀ (nPeople minGraphLen : Nat) (seed : Option Int)
       (seatingKind relationProfile : Option String) (difficulty : String)
       (dense : Bool) (g0 : Rng) (pz : Puzzle),
       generate nPeople minGraphLen seed seatingKind relationProfile difficulty
         dense g0 = .ok pz →
       pz.solution_summary = buildSummary (mkIdToFact pz.facts) pz.solution_path ∧
       (∀ line ∈ pz.solution_summary, ∃ f ∈ pz.facts, f.id ∈ pz.solution_path ∧
         line = f.subj ++ ":" ++ f.rel ++ " -> " ++ f.obj) ∧
       pz.solution_summary.length ≤ pz.solution_path.length) ∧
    (generate 2 0 none (some "linear") (some "social") "low" false
        (fun n => 4 * n + 4) = .ok c10Pz ∧
      c10Pz.solution_summary.length < c10Pz.solution_path.length) := by
  constructor
  · intro nPeople minGraphLen seed seatingKind relationProfile difficulty dense g0 pz h
    obtain ⟨names, relations, smap, pathFacts, pathIds, ps₁, g₁, g₂, g₃, g₄, k, extraFacts,
      ps₂, -, -, -, -, -, -, hsum, -⟩ := generate_ok_inversion h
    refine ⟨hsum, ?_, ?_⟩
    · intro line hline
      rw [hsum] at hline
      obtain ⟨i, hi, f, hf, he⟩ := buildSummary_mem hline
      obtain ⟨hfm, hfi⟩ := mkIdToFact_mem (lookupA_mem hf)
      exact ⟨f, hfm, hfi ▸ hi, he⟩
    · rw [hsum]
      exact buildSummary_length _ _
  · exact ⟨rfl, by decide⟩

set_option maxHeartbeats 1000000 in
theorem c10Pz_ok : generate 2 0 none (some "linear") (some "social") "low" false
    (fun n => 4 * n + 4) = .ok c10Pz := rfl

/-- Witness for C10's universally quantified part at a concrete input. -/
theorem generate_summary_correspondence_witness :
    c10Pz.solution_summary = buildSummary (mkIdToFact c10Pz.facts) c10Pz.solution_path ∧
    c10Pz.solution_summary.length ≤ c10Pz.solution_path.length :=
  ⟨(generate_summary_correspondence.1 2 0 none (some "linear") (some "social") "low" false
      (fun n => 4 * n + 4) c10Pz c10Pz_ok).1,
    (generate_summary_correspondence.1 2 0 none (some "linear") (some "social") "low" false
      (fun n => 4 * n + 4) c10Pz c10Pz_ok).2.2⟩

/-! ## C6: linear geometry characterization -/

def spatialLookup (m : SpatialMap) (k : String × String) : List String :=
  (lookupA k m).getD []

/-- The linear spatial labels of the specification, for subject index `i` and
object index `j`. -/
def linearSpecRels (i j : Nat) (l : String) : Prop :=
  (l = "left_of" ∧ i < j) ∨ (l = "right_of" ∧ j < i) ∨
  (l = "next_to" ∧ (j - i = 1 ∨ i - j = 1)) ∨
  (l = "two_left_of" ∧ j - i = 2) ∨ (l = "two_right_of" ∧ i - j = 2)

theorem mem_setAdd {s : List String} {r l : String} :
    l ∈ setAdd s r ↔ l = r ∨ l ∈ s := by
  rw [setAdd]
  split
  · rename_i hr
    constructor
    · exact Or.inr
    · rintro (rfl | h)
      · exact hr
      · exact h
  · rw [List.mem_append, List.mem_singleton]
    tauto

theorem mem_mapAdd {k k' : String × String} {r l : String} :
    ∀ {m : SpatialMap}, l ∈ spatialLookup (mapAdd k r m) k' ↔
      (k' = k ∧ l = r) ∨ l ∈ spatialLookup m k' := by
  intro m
  induction m with
  | nil =>
    rw [mapAdd]
    by_cases hk : k' = k <;> simp [spatialLookup, lookupA, hk]
  | cons q rest ih =>
    rw [mapAdd]
    by_cases hk : k = q.1
    · rw [if_pos hk]
      rw [spatialLookup, spatialLookup, lookupA, lookupA]
      by_cases hk' : k' = k
      · rw [if_pos hk', if_pos (hk ▸ hk')]
        simp only [Option.getD_some]
        rw [mem_setAdd]
        tauto
      · rw [if_neg hk', if_neg (fun hq : k' = q.1 => hk' (hq.trans hk.symm))]
        tauto
    · rw [if_neg hk]
      rw [spatialLookup, lookupA]
      by_cases hk' : k' = q.1
      · rw [if_pos hk']
        have : ¬ k' = k := fun h => hk (h.symm.trans hk')
        rw [spatialLookup, lookupA, if_pos hk']
        tauto
      · rw [if_neg hk']
        rw [show spatialLookup (q :: rest) k' = spatialLookup rest k' by
          rw [spatialLookup, lookupA, if_neg hk']; rfl]
        exact ih

theorem mem_linStepLeft {s o : String} {i j : Nat} {m : SpatialMap}
    {k : String × String} {l : String} :
    l ∈ spatialLookup (linStepLeft s o i j m) k ↔
      (i < j ∧ k = (s, o) ∧ l = "left_of") ∨ l ∈ spatialLookup m k := by
  rw [linStepLeft]
  split
  · rw [mem_mapAdd]; tauto
  · tauto

theorem mem_linStepRight {s o : String} {i j : Nat} {m : SpatialMap}
    {k : String × String} {l : String} :
    l ∈ spatialLookup (linStepRight s o i j m) k ↔
      (j < i ∧ k = (s, o) ∧ l = "right_of") ∨ l ∈ spatialLookup m k := by
  rw [linStepRight]
  split
  · rw [mem_mapAdd]; tauto
  · tauto

theorem mem_linStepNext {s o : String} {i j : Nat} {m : SpatialMap}
    {k : String × String} {l : String} :
    l ∈ spatialLookup (linStepNext s o i j m) k ↔
      ((j - i = 1 ∨ i - j = 1) ∧ k = (s, o) ∧ l = "next_to") ∨ l ∈ spatialLookup m k := by
  rw [linStepNext]
  split
  · rw [mem_mapAdd]; tauto
  · tauto

theorem mem_linStepTwo {s o : String} {i j : Nat} {m : SpatialMap}
    {k : String × String} {l : String} :
    l ∈ spatialLookup (linStepTwo s o i j m) k ↔
      (j - i = 2 ∧ k = (s, o) ∧ l = "two_left_of") ∨
      (i - j = 2 ∧ k = (s, o) ∧ l = "two_right_of") ∨ l ∈ spatialLookup m k := by
  rw [linStepTwo]
  split
  · rename_i h
    split
    · rename_i h2
      rw [mem_mapAdd]
      constructor
      · rintro (⟨hk, rfl⟩ | hb)
        · exact Or.inl ⟨by omega, hk, rfl⟩
        · tauto
      · rintro (⟨h3, hk, rfl⟩ | ⟨h3, hk, rfl⟩ | hb)
        · exact Or.inl ⟨hk, rfl⟩
        · omega
        · tauto
    · rename_i h2
      rw [mem_mapAdd]
      constructor
      · rintro (⟨hk, rfl⟩ | hb)
        · exact Or.inr (Or.inl ⟨by omega, hk, rfl⟩)
        · tauto
      · rintro (⟨h3, hk, rfl⟩ | ⟨h3, hk, rfl⟩ | hb)
        · omega
        · exact Or.inl ⟨hk, rfl⟩
        · tauto
  · rename_i h
    constructor
    · tauto
    · rintro (⟨h3, -, -⟩ | ⟨h3, -, -⟩ | hb)
      · omega
      · omega
      · exact hb

theorem linearPairStep_mem {m : SpatialMap} {s : String} {i : Nat} {o : String} {j : Nat}
    {k : String × String} {l : String} :
    l ∈ spatialLookup (linearPairStep m s i o j) k ↔
      l ∈ spatialLookup m k ∨ (k = (s, o) ∧ s ≠ o ∧ linearSpecRels i j l) := by
  rw [linearPairStep]
  split
  · rename_i hso
    constructor
    · exact Or.inl
    · rintro (h | ⟨-, hne, -⟩)
      · exact h
      · exact absurd hso hne
  · rename_i hso
    rw [mem_linStepTwo, mem_linStepNext, mem_linStepRight, mem_linStepLeft, linearSpecRels]
    tauto

theorem linearInner_mem {s : String} {i : Nat} {k : String × String} {l : String} :
    ∀ {lst : List (String × Nat)} {m : SpatialMap},
      l ∈ spatialLookup (lst.foldl (fun m q => linearPairStep m s i q.1 q.2) m) k ↔
        l ∈ spatialLookup m k ∨
          ∃ q ∈ lst, k = (s, q.1) ∧ s ≠ q.1 ∧ linearSpecRels i q.2 l := by
  intro lst
  induction lst with
  | nil => intro m; simp
  | cons q rest ih =>
    intro m
    rw [List.foldl_cons, ih, linearPairStep_mem]
    constructor
    · rintro ((h | h) | ⟨q', hq', hp⟩)
      · exact Or.inl h
      · exact Or.inr ⟨q, List.mem_cons_self _ _, h⟩
      · exact Or.inr ⟨q', List.mem_cons_of_mem _ hq', hp⟩
    · rintro (h | ⟨q', hq', hp⟩)
      · exact Or.inl (Or.inl h)
      · rcases List.mem_cons.mp hq' with rfl | hq''
        · exact Or.inl (Or.inr hp)
        · exact Or.inr ⟨q', hq'', hp⟩

theorem linearOuter_mem {ps : List (String × Nat)} {k : String × String} {l : String} :
    ∀ {lst : List (String × Nat)} {m : SpatialMap},
      l ∈ spatialLookup (lst.foldl (fun m p =>
        ps.foldl (fun m q => linearPairStep m p.1 p.2 q.1 q.2) m) m) k ↔
        l ∈ spatialLookup m k ∨
          ∃ p ∈ lst, ∃ q ∈ ps, k = (p.1, q.1) ∧ p.1 ≠ q.1 ∧ linearSpecRels p.2 q.2 l := by
  intro lst
  induction lst with
  | nil => intro m; simp
  | cons p rest ih =>
    intro m
    rw [List.foldl_cons, ih, linearInner_mem]
    constructor
    · rintro ((h | ⟨q, hq, hp⟩) | ⟨p', hp', hrest⟩)
      · exact Or.inl h
      · exact Or.inr ⟨p, List.mem_cons_self _ _, q, hq, hp⟩
      · exact Or.inr ⟨p', List.mem_cons_of_mem _ hp', hrest⟩
    · rintro (h | ⟨p', hp', hrest⟩)
      · exact Or.inl (Or.inl h)
      · rcases List.mem_cons.mp hp' with rfl | hp''
        · exact Or.inl (Or.inr hrest)
        · exact Or.inr ⟨p', hp'', hrest⟩

theorem foldl_insertA_nodup_keys {κ α β : Type} [DecidableEq κ]
    (key : β → κ) (val : β → α) :
    ∀ (l : List β) (acc : List (κ × α)), (acc.map Prod.fst).Nodup →
      ((l.foldl (fun m x => insertA (key x) (val x) m) acc).map Prod.fst).Nodup := by
  intro l
  induction l with
  | nil => intro acc h; exact h
  | cons x rest ih =>
    intro acc h
    rw [List.foldl_cons]
    exact ih _ (nodup_keys_insertA h)

theorem positionsOf_nodup_keys (seats : List (Nat × String)) :
    ((positionsOf seats).map Prod.fst).Nodup := by
  rw [positionsOf]
  exact foldl_insertA_nodup_keys (fun p : Nat × String => p.2) (fun p => p.1) _ [] (by simp)

theorem lookupA_of_mem_nodup {κ α : Type} [DecidableEq κ] :
    ∀ {l : List (κ × α)} {k : κ} {v : α}, (k, v) ∈ l → (l.map Prod.fst).Nodup →
      lookupA k l = some v := by
  intro l
  induction l with
  | nil => intro k v h _; simp at h
  | cons p rest ih =>
    intro k v h hnd
    simp only [List.map_cons, List.nodup_cons] at hnd
    rw [lookupA]
    rcases List.mem_cons.mp h with he | h'
    · rw [← he]
      rw [if_pos rfl]
    · by_cases hk : k = p.1
      · exact absurd (List.mem_map.mpr ⟨(k, v), h', hk⟩) hnd.1
      · rw [if_neg hk]
        exact ih h' hnd.2

/-- **C6.** For a linear seating, the Geometry Resolver's map contains, for an
ordered pair of distinct occupied entities at indices `i` (subject) and `j`
(object): `left_of` exactly when `i < j`, `right_of` exactly when `j < i`,
`next_to` exactly when `|i - j| = 1`, `two_left_of` exactly when `j - i = 2`,
`two_right_of` exactly when `i - j = 2`, and no other labels. -/
theorem geometry_linear_characterization (seating : Seating) (a b : String) (i j : Nat)
    (l : String)
    (hkind : seating.kind = "linear")
    (ha : lookupA a (positionsOf seating.seats) = some i)
    (hb : lookupA b (positionsOf seating.seats) = some j) :
    l ∈ spatialLookup (buildSpatialRelationMap seating) (a, b) ↔
      a ≠ b ∧ ((l = "left_of" ∧ i < j) ∨ (l = "right_of" ∧ j < i) ∨
        (l = "next_to" ∧ (j - i = 1 ∨ i - j = 1)) ∨
        (l = "two_left_of" ∧ j - i = 2) ∨ (l = "two_right_of" ∧ i - j = 2)) := by
  have hseats : ¬ seating.seats = [] := by
    intro he
    rw [positionsOf, he] at ha
    simp [orderedSlots, sortSeats, lookupA] at ha
  rw [buildSpatialRelationMap, if_neg hseats, if_pos hkind]
  rw [linearOuter_mem]
  have hnd := positionsOf_nodup_keys seating.seats
  constructor
  · rintro (h | ⟨p, hp, q, hq, hk, hne, hspec⟩)
    · simp [spatialLookup, lookupA] at h
    · rw [Prod.mk.injEq] at hk
      obtain ⟨ha', hb'⟩ := hk
      have hpa : lookupA p.1 (positionsOf seating.seats) = some p.2 :=
        lookupA_of_mem_nodup (by rw [Prod.mk.eta]; exact hp) hnd
      have hqb : lookupA q.1 (positionsOf seating.seats) = some q.2 :=
        lookupA_of_mem_nodup (by rw [Prod.mk.eta]; exact hq) hnd
      rw [← ha'] at hpa
      rw [← hb'] at hqb
      rw [ha] at hpa
      rw [hb] at hqb
      injection hpa with hpa
      injection hqb with hqb
      refine ⟨by rw [ha', hb']; exact hne, ?_⟩
      rw [linearSpecRels] at hspec
      rw [← hpa, ← hqb] at hspec
      exact hspec
  · rintro ⟨hne, hspec⟩
    exact Or.inr ⟨(a, i), lookupA_mem ha, (b, j), lookupA_mem hb, rfl, hne,
      by rw [linearSpecRels]; exact hspec⟩

def c6Seating : Seating := ⟨"linear", [(1, "Alex"), (2, "Blair")]⟩

/-- Witness for C6: the claim's concrete example of two entities seated at
positions 1 and 2. -/
theorem geometry_linear_characterization_witness :
    ("left_of" ∈ spatialLookup (buildSpatialRelationMap c6Seating) ("Alex", "Blair") ↔
      "Alex" ≠ "Blair" ∧ (("left_of" = "left_of" ∧ 0 < 1) ∨ ("left_of" = "right_of" ∧ 1 < 0) ∨
        ("left_of" = "next_to" ∧ (1 - 0 = 1 ∨ 0 - 1 = 1)) ∨
        ("left_of" = "two_left_of" ∧ 1 - 0 = 2) ∨ ("left_of" = "two_right_of" ∧ 0 - 1 = 2))) ∧
    spatialLookup (buildSpatialRelationMap c6Seating) ("Alex", "Blair") =
      ["left_of", "next_to"] ∧
    spatialLookup (buildSpatialRelationMap c6Seating) ("Blair", "Alex") =
      ["right_of", "next_to"] :=
  ⟨geometry_linear_characterization c6Seating "Alex" "Blair" 0 1 "left_of" rfl rfl rfl,
    by decide, by decide⟩

/-! ## C7: Extra-Fact Sampler choice distribution -/

def c7Names : List String := ["A", "B"]

def c7Relations : List String := ["friend_of", "left_of"]

def c7Smap : SpatialMap := [(("A", "B"), ["left_of"])]

/-- A raw random stream delivering `u` as the first draw and `v` afterwards. -/
def c7Stream (u v : Nat) : Rng := fun n => if n = 0 then u else v

def c7Pick (u v : Nat) : Except String ((String × String × String) × Rng) :=
  _pickRelationPair c7Names c7Relations c7Smap [] (c7Stream u v)

/-- All draw pairs `(u, v)` with `u, v < 2`; under the raw uniform source each
is equally likely, and two residues modulo every list length `≤ 2` occur
equally often. -/
def c7Grid : List (Nat × Nat) :=
  (List.range 2).foldr (fun u acc => ((List.range 2).map (fun v => (u, v))) ++ acc) []

/-- How many equally-likely draw pairs make the sampler return triple `t`. -/
def c7Count (t : String × String × String) : Nat :=
  (c7Grid.filter (fun p =>
    match c7Pick p.1 p.2 with
    | .ok (t', _) => decide (t' = t)
    | .error _ => false)).length

/-- **C7 (counterexample).** In the Extra-Fact Sampler, the chosen triple is
not uniform over the enumerated valid triples: in a concrete state where the
pair (A,B) has two legal relations and (B,A) has one, the triples
(A,friend_of,B) and (B,friend_of,A) are both valid, yet over the uniform grid
of raw draws the sampler returns the former once and the latter twice.
(Triples are in the sampler's (subject, object, relation) shape.) -/
theorem c7_counterexample :
    ("friend_of" ∈ validRelationsBetween "A" "B" c7Relations c7Smap []) ∧
    ("friend_of" ∈ validRelationsBetween "B" "A" c7Relations c7Smap []) ∧
    c7Count ("A", "B", "friend_of") = 1 ∧
    c7Count ("B", "A", "friend_of") = 2 := by decide

/-- **C7 (amended).** The Extra-Fact Sampler picks uniformly among the viable
(subject, object) pairs first — the chosen pair depends only on the first raw
draw, not on how many legal relations each pair has — and then uniformly among
that pair's legal relations.  Consequently a pair with more legal relation
options is *not* proportionally more likely: in the concrete state of the
counterexample the distribution over triples is 1/4, 1/4, 2/4. -/
theorem extra_fact_sampler_pair_uniform :
    (∀ (names relations : List String) (smap : SpatialMap) (ps : PairState)
       (u v v' : Nat) (a b rel : String) (g' : Rng) (a' b' rel' : String) (g'' : Rng),
       _pickRelationPair names relations smap ps (c7Stream u v) = .ok ((a, b, rel), g') →
       _pickRelationPair names relations smap ps (c7Stream u v') = .ok ((a', b', rel'), g'') →
       a = a' ∧ b = b') ∧
    pairViable c7Names c7Relations c7Smap [] =
      [("A", "B", ["friend_of", "left_of"]), ("B", "A", ["friend_of"])] ∧
    c7Count ("A", "B", "friend_of") = 1 ∧
    c7Count ("A", "B", "left_of") = 1 ∧
    c7Count ("B", "A", "friend_of") = 2 := by
  refine ⟨?_, by decide, by decide, by decide, by decide⟩
  intro names relations smap ps u v v' a b rel g' a' b' rel' g'' h1 h2
  rw [_pickRelationPair] at h1 h2
  split at h1
  · exact Except.noConfusion h1
  next w ws hpv =>
    rw [hpv] at h2
    have h1' : (match chooseE ((w :: ws).getD (u % (ws.length + 1)) w).2.2
        (fun n => c7Stream u v (n + 1)) with
      | .error e => (.error e : Except String ((String × String × String) × Rng))
      | .ok (r, g₃) => .ok ((((w :: ws).getD (u % (ws.length + 1)) w).1,
          ((w :: ws).getD (u % (ws.length + 1)) w).2.1, r), g₃)) =
        .ok ((a, b, rel), g') := h1
    have h2' : (match chooseE ((w :: ws).getD (u % (ws.length + 1)) w).2.2
        (fun n => c7Stream u v' (n + 1)) with
      | .error e => (.error e : Except String ((String × String × String) × Rng))
      | .ok (r, g₃) => .ok ((((w :: ws).getD (u % (ws.length + 1)) w).1,
          ((w :: ws).getD (u % (ws.length + 1)) w).2.1, r), g₃)) =
        .ok ((a', b', rel'), g'') := h2
    clear h1 h2
    split at h1'
    · exact Except.noConfusion h1'
    next r₁ g₃ heq₁ =>
      injection h1' with h1i
      simp only [Prod.mk.injEq] at h1i
      split at h2'
      · exact Except.noConfusion h2'
      next r₂ g₄ heq₂ =>
        injection h2' with h2i
        simp only [Prod.mk.injEq] at h2i
        exact ⟨h1i.1.1.symm.trans h2i.1.1, h1i.1.2.1.symm.trans h2i.1.2.1⟩

/-- Witness for C7's general part at concrete draws: with first draw 0 the
sampler picks the pair (A, B) regardless of the second draw. -/
theorem extra_fact_sampler_pair_uniform_witness : "A" = "A" ∧ "B" = "B" :=
  extra_fact_sampler_pair_uniform.1 c7Names c7Relations c7Smap [] 0 0 1
    "A" "B" "friend_of" (fun n => c7Stream 0 0 (n + 1 + 1))
    "A" "B" "left_of" (fun n => c7Stream 0 1 (n + 1 + 1)) rfl rfl

end PuzzleGen
